import Mathlib

/-!
Verification of the koboapi flattening core: schema parsing
(structure_parser.py / models.py), submission flattening
(data_processor.py), the parallel builder pipeline (builder.py),
and the exception hierarchy (exceptions.py), shallowly embedded in Lean.

Python dicts are modelled as association lists where assignment to an
existing key keeps the key's position (CPython dict semantics); JSON-like
submission values are scalars or arrays of objects.
-/

namespace Kobo

/-! ## Python dict model -/
/-- Python dict assignment `d[k] = v`: replaces in place when the key is
present, appends otherwise. -/
def alistInsert {α : Type} (l : List (String × α)) (k : String) (v : α) :
    List (String × α) :=
  match l with
  | [] => [(k, v)]
  | (k', v') :: t => if k' = k then (k, v) :: t else (k', v') :: alistInsert t k v

/-- Python `d.get(k)` / `d[k]` lookup (first — and by the insert invariant,
only — binding of the key). -/
def alistGet? {α : Type} (l : List (String × α)) (k : String) : Option α :=
  match l with
  | [] => none
  | (k', v) :: t => if k' = k then some v else alistGet? t k

/-- Python `d.get(k, default)`. -/
def alistGetD {α : Type} (l : List (String × α)) (k : String) (d : α) : α :=
  (alistGet? l k).getD d

/-- Python `k in d`. -/
def alistMem {α : Type} (l : List (String × α)) (k : String) : Bool :=
  (alistGet? l k).isSome

/-- `list(d.keys())`. -/
def alistKeys {α : Type} (l : List (String × α)) : List String :=
  l.map Prod.fst

/-! ## Python string helpers used by the source -/
/-- Python `c in s` for a single character. -/
def strContains (s : String) (c : Char) : Bool :=
  s.toList.contains c

/-- Python `s.count('/')`. -/
def countSlashes (s : String) : Nat :=
  s.toList.count '/'

/-- Character-list splitter realizing Python `str.split(sep)` for a
one-character separator. -/
def splitCh (c : Char) : List Char → List (List Char)
  | [] => [[]]
  | x :: xs =>
    if x = c then [] :: splitCh c xs
    else
      match splitCh c xs with
      | h :: t => (x :: h) :: t
      | [] => [[x]]

/-- Python `s.split('/')` (for the single separator the source uses). -/
def pySplit (s : String) (c : Char) : List String :=
  (splitCh c s.toList).map (fun l => String.mk l)

/-- Python `s.split('/')[-1] if '/' in s else s`, the pattern used by
`Question.original_name`, `RepeatGroup.simple_name` and the row fillers. -/
def lastSegment (s : String) : String :=
  if strContains s '/' then (pySplit s '/').getLastD s else s

/-- Python `p.startswith(s)`-style prefix test (`str.startswith` in the
source), computed on the character lists. -/
def strIsPrefixOf (p s : String) : Bool :=
  p.toList.isPrefixOf s.toList

/-- Python `s.rstrip('/')`. -/
def rstripSlash (s : String) : String :=
  String.mk (s.toList.reverse.dropWhile (fun c => c = '/')).reverse

/-! ## Submission values (JSON-like) -/
/-- A scalar value in a submission. -/
inductive Prim where
  | s (v : String)
  | i (v : Int)
deriving DecidableEq, Repr

/-- A submission field value: a scalar, or an array of objects (the shape
repeat-group instances take in KoBo data).  `isinstance(value, list)` in the
source distinguishes exactly these two cases. -/
inductive JVal where
  | prim (p : Prim)
  | arr (elems : List (List (String × JVal)))

/-- A submission (or one repeat-group instance): a JSON object. -/
abbrev Submission := List (String × JVal)

mutual
def JVal.decEq : (a b : JVal) → Decidable (a = b)
  | .prim a, .prim b =>
    if h : a = b then isTrue (congrArg JVal.prim h)
    else isFalse (fun hh => h (JVal.prim.inj hh))
  | .prim _, .arr _ => isFalse (fun hh => JVal.noConfusion hh)
  | .arr _, .prim _ => isFalse (fun hh => JVal.noConfusion hh)
  | .arr a, .arr b =>
    match JVal.decEqObjList a b with
    | isTrue h => isTrue (congrArg JVal.arr h)
    | isFalse h => isFalse (fun hh => h (JVal.arr.inj hh))
def JVal.decEqObjList : (a b : List (List (String × JVal))) → Decidable (a = b)
  | [], [] => isTrue rfl
  | [], _ :: _ => isFalse (fun hh => List.noConfusion hh)
  | _ :: _, [] => isFalse (fun hh => List.noConfusion hh)
  | x :: xs, y :: ys =>
    match JVal.decEqObj x y, JVal.decEqObjList xs ys with
    | isTrue h1, isTrue h2 => isTrue (by rw [h1, h2])
    | isFalse h1, _ => isFalse (fun hh => h1 (List.cons.inj hh).1)
    | _, isFalse h2 => isFalse (fun hh => h2 (List.cons.inj hh).2)
def JVal.decEqObj : (a b : List (String × JVal)) → Decidable (a = b)
  | [], [] => isTrue rfl
  | [], _ :: _ => isFalse (fun hh => List.noConfusion hh)
  | _ :: _, [] => isFalse (fun hh => List.noConfusion hh)
  | (ka, va) :: xs, (kb, vb) :: ys =>
    if h1 : ka = kb then
      match JVal.decEq va vb, JVal.decEqObj xs ys with
      | isTrue h2, isTrue h3 => isTrue (by rw [h1, h2, h3])
      | isFalse h2, _ =>
        isFalse (fun hh => h2 (congrArg Prod.snd (List.cons.inj hh).1))
      | _, isFalse h3 => isFalse (fun hh => h3 (List.cons.inj hh).2)
    else isFalse (fun hh => h1 (congrArg Prod.fst (List.cons.inj hh).1))
end

instance : DecidableEq JVal := JVal.decEq

/-! ## models.py -/
/-- `Question` dataclass (models.py). -/
structure Question where
  name : String
  type : String
  label : String
  sequence : Nat
  required : Bool
  list_name : Option String
  path : String
deriving DecidableEq, Repr

/-- `Question.original_name` property. -/
def Question.original_name (q : Question) : String :=
  lastSegment q.name

/-- `RepeatGroup` dataclass (models.py). -/
structure RepeatGroup where
  name : String
  label : String
  sequence : Nat
  path : String
  level : Nat
deriving DecidableEq, Repr

/-- `RepeatGroup.simple_name` property. -/
def RepeatGroup.simple_name (g : RepeatGroup) : String :=
  lastSegment g.name

/-- `SurveyStructure` dataclass (models.py); the dicts keep insertion order. -/
structure SurveyStructure where
  questions : List (String × Question)
  repeat_groups : List (String × RepeatGroup)
deriving DecidableEq, Repr

/-- `SurveyStructure.get_questions_by_path`. -/
def SurveyStructure.get_questions_by_path (st : SurveyStructure) (path : String) :
    List (String × Question) :=
  st.questions.filter (fun nq => nq.2.path == path)

/-! ## structure_parser.py input model

The XLSForm JSON consumed by `StructureParser`: nested dicts of question
descriptors and group descriptors.  Optional fields reflect `dict.get`
defaults in the source. -/
/-- One question descriptor in the XLSForm JSON. -/
structure QData where
  qtype : Option String
  label : Option String
  seq : Option Nat
  required : Option Bool
  list_name : Option String
deriving DecidableEq, Repr

/-- One group descriptor in the XLSForm JSON (possibly nested).  Absent
`questions`/`groups` keys are modelled as empty lists: recursing into two
empty dicts is a no-op, exactly like the source's key-presence guard. -/
inductive GNode where
  | node (label : Option String) (seq : Option Nat) (rep : Option Bool)
      (questions : List (String × QData)) (groups : List (String × GNode))

/-- Top-level XLSForm JSON. -/
structure XLSForm where
  questions : List (String × QData)
  groups : List (String × GNode)

/-! ## structure_parser.py : StructureParser._parse_level / parse

The running `self._sequence` counter is threaded explicitly; the two
accumulator dicts `all_questions` / `all_groups` are threaded as
association lists with Python-dict assignment semantics. -/
/-- The question loop of `_parse_level` (structure_parser.py lines 34-46). -/
def parseQuestions (qs : List (String × QData)) (pre : String)
    (acc : List (String × Question)) (c : Nat) :
    List (String × Question) × Nat :=
  match qs with
  | [] => (acc, c)
  | (n, qd) :: rest =>
    let full := if pre = "" then n else pre ++ n
    let q : Question :=
      { name := full, type := qd.qtype.getD "", label := qd.label.getD n,
        sequence := qd.seq.getD c, required := qd.required.getD false,
        list_name := qd.list_name, path := rstripSlash pre }
    parseQuestions rest pre (alistInsert acc full q) (c + 1)

/-- The group loop of `_parse_level` (structure_parser.py lines 48-72); the
recursive `_parse_level` call is inlined as its question loop followed by
its group loop, which is `_parse_level`'s literal body. -/
def parseGroups : List (String × GNode) → String →
    List (String × Question) → List (String × RepeatGroup) → Nat →
    List (String × Question) × List (String × RepeatGroup) × Nat
  | [], _, accQ, accG, c => (accQ, accG, c)
  | (n, .node glabel gseq grep gqs ggs) :: rest, pre, accQ, accG, c =>
    let full := if pre = "" then n else pre ++ n
    let newPre := full ++ "/"
    let step : List (String × RepeatGroup) × Nat :=
      if grep.getD false then
        (alistInsert accG full
          { name := full, label := glabel.getD n, sequence := gseq.getD c,
            path := rstripSlash pre, level := countSlashes full }, c + 1)
      else (accG, c)
    let q1 := parseQuestions gqs newPre accQ step.2
    let g1 := parseGroups ggs newPre q1.1 step.1 q1.2
    parseGroups rest pre g1.1 g1.2.1 g1.2.2

/-- `_parse_level` on one level: questions first, then groups. -/
def parseLevel (qs : List (String × QData)) (gs : List (String × GNode))
    (pre : String) (accQ : List (String × Question))
    (accG : List (String × RepeatGroup)) (c : Nat) :
    List (String × Question) × List (String × RepeatGroup) × Nat :=
  let q1 := parseQuestions qs pre accQ c
  parseGroups gs pre q1.1 accG q1.2

/-- `StructureParser.parse` run from a given value of the instance counter
`self._sequence`; returns the structure and the counter left behind. -/
def parseFrom (x : XLSForm) (c : Nat) : SurveyStructure × Nat :=
  let r := parseLevel x.questions x.groups "" [] [] c
  ({ questions := r.1, repeat_groups := r.2.1 }, r.2.2)

/-- `StructureParser(x).parse()` on a freshly constructed parser
(`self._sequence = 0`). -/
def parseXLSForm (x : XLSForm) : SurveyStructure :=
  (parseFrom x 0).1

/-! ## data_processor.py : DataProcessor

A row is a dict from column name to a cell; `none` is Python `None`
(the null sentinel), `some v` a value copied from the submission. -/
/-- One row cell: Python `None` or a submission value. -/
abbrev Cell := Option JVal

/-- One flat row (an ordered dict, as the source builds it). -/
abbrev Row := List (String × Cell)

/-- `DataProcessor.METADATA_COLUMNS`. -/
def METADATA_COLUMNS : List String :=
  ["_id", "__version__",
   "_xform_id_string", "_uuid", "_attachments",
   "_status", "_geolocation", "_submission_time", "_tags",
   "_notes", "_validation_status", "_submitted_by"]

/-- `submission.get(key, [])` followed by iterating the result, as the
repeat extractors do.  The submission contract (spec section 6) stores
repeat instances as arrays of objects; an absent key contributes the empty
default.  (A scalar stored at a repeat key would make the Python `for` loop
raise; such inputs are outside the submission contract and are modelled as
contributing no items.) -/
def getItemList (s : Submission) (k : String) : List Submission :=
  match alistGet? s k with
  | some (.arr l) => l
  | _ => []

/-- Python `str()` of a submission value, used to build synthetic ids
(`f"{submission_id}_{i + 1}"`).  Mirrors Python exactly on the scalar
values ids actually take; an array id would stringify via `repr`, which no
contract-conforming submission produces. -/
def jvalStr : JVal → String
  | .prim (.s v) => v
  | .prim (.i n) => toString n
  | .arr _ => ""

/-- `submission.get('_id', submission.get('meta/instanceID', ''))`
(data_processor.py line 132). -/
def getSubmissionId (s : Submission) : JVal :=
  alistGetD s "_id" (alistGetD s "meta/instanceID" (.prim (.s "")))

/-- `DataProcessor._initialize_row`: metadata columns then one column per
question, all set to `None`. -/
def initialize_row (questions : List (String × Question)) : Row :=
  questions.foldl (fun r nq => alistInsert r nq.2.original_name none)
    (METADATA_COLUMNS.foldl (fun r col => alistInsert r col none) [])

/-- `DataProcessor._initialize_row_for_group`: add a `None` column per
question of the group to an existing row. -/
def initialize_row_for_group (row : Row) (questions : List (String × Question)) :
    Row :=
  questions.foldl (fun r nq => alistInsert r nq.2.original_name none) row

/-- `DataProcessor._fill_row_data`: copy each non-list field whose
last path segment is an existing column into the row (the unused `is_main`
flag of the source is omitted).  The `for` loop is written as structural
recursion over the data fields. -/
def fill_row_data (row : Row) : Submission → Row
  | [] => row
  | kv :: rest =>
    match kv.2 with
    | .arr _ => fill_row_data row rest
    | v =>
      let originalKey := lastSegment kv.1
      fill_row_data
        (if alistMem row originalKey then alistInsert row originalKey (some v) else row)
        rest

/-- The row built for one level-0 repeat item
(data_processor.py lines 224-235). -/
def mkLevel0Row (questions : List (String × Question)) (subId : JVal)
    (item : Submission) : Row :=
  let row := alistInsert [] "_parent_id" (some subId)
  let row := initialize_row_for_group row questions
  fill_row_data row item

/-- The row built for one second-level nested item
(data_processor.py lines 286-300). -/
def mkNestedRow (questions : List (String × Question)) (subId : JVal)
    (p0 : String) (i : Nat) (secondItem : Submission) : Row :=
  let firstLevelId := jvalStr subId ++ "_" ++ toString (i + 1)
  let row := alistInsert [] "_parent_id" (some subId)
  let row := alistInsert row ("_" ++ p0 ++ "_id") (some (.prim (.s firstLevelId)))
  let row := initialize_row_for_group row questions
  fill_row_data row secondItem

/-- `DataProcessor._extract_nested_repeat_data`: handles exactly the
two-segment case; deeper paths fall through the `len(path_parts) == 2`
guard and contribute no rows. -/
def extract_nested_repeat_data (submission : Submission)
    (path_parts : List String) (questions : List (String × Question))
    (subId : JVal) : List Row :=
  match path_parts with
  | p0 :: p1 :: restParts =>
    let firstLevel := getItemList submission p0
    firstLevel.enum.flatMap
      (fun ip =>
        if restParts.isEmpty then
          let secondLevelKey := p0 ++ "/" ++ p1
          let secondItems := getItemList ip.2 secondLevelKey
          secondItems.map (mkNestedRow questions subId p0 ip.1)
        else [])
  | _ => []

/-- `DataProcessor._extract_repeat_data`. -/
def extract_repeat_data (submission : Submission) (group : RepeatGroup)
    (questions : List (String × Question)) (subId : JVal) : List Row :=
  let path_parts := pySplit group.name '/'
  if group.level = 0 then
    (getItemList submission group.simple_name).map (mkLevel0Row questions subId)
  else
    extract_nested_repeat_data submission path_parts questions subId

/-- The question filter of `DataProcessor._create_repeat_dataframe`
(data_processor.py lines 120-124). -/
def groupQuestions (st : SurveyStructure) (group : RepeatGroup) :
    List (String × Question) :=
  st.questions.filter
    (fun nq => nq.2.path == group.name || strIsPrefixOf (group.name ++ "/") nq.2.path)

/-- `DataProcessor._create_repeat_dataframe` (as its list of rows). -/
def create_repeat_dataframe (st : SurveyStructure) (submissions : List Submission)
    (group : RepeatGroup) : List Row :=
  let gq := groupQuestions st group
  submissions.flatMap
    (fun sub => extract_repeat_data sub group gq (getSubmissionId sub))

/-- `DataProcessor._create_main_dataframe` (as its list of rows). -/
def create_main_dataframe (st : SurveyStructure) (submissions : List Submission) :
    List Row :=
  let mainQuestions := st.get_questions_by_path ""
  submissions.map (fun sub => fill_row_data (initialize_row mainQuestions) sub)

/-- `pd.DataFrame(rows).empty`: true when there are no rows or no columns
(the latter when every row dict is empty). -/
def dfEmpty (rows : List Row) : Bool :=
  rows.isEmpty || rows.all (fun r => r.isEmpty)

/-- `DataProcessor._get_sorted_repeat_groups`: Python's `sorted` with
`key=lambda x: x[1].level` — a stable sort on the non-strict key order.
A stable sort's output is uniquely determined, so the structural insertion
sort used here computes exactly what CPython's stable sort returns. -/
def get_sorted_repeat_groups (st : SurveyStructure) :
    List (String × RepeatGroup) :=
  st.repeat_groups.insertionSort (fun a b => a.2.level ≤ b.2.level)

/-- `DataProcessor.process_submissions`: empty input gives `[]`; the main
table and then each group table is appended only when non-empty. -/
def process_submissions (st : SurveyStructure) (submissions : List Submission) :
    List (List Row) :=
  if submissions.isEmpty then []
  else
    let main := create_main_dataframe st submissions
    let dfs := if dfEmpty main then [] else [main]
    (get_sorted_repeat_groups st).foldl
      (fun acc g =>
        let t := create_repeat_dataframe st submissions g.2
        if dfEmpty t then acc else acc ++ [t])
      dfs

/-! ## builder.py : XLSFormDataStructureBuilder and module functions -/
/-- One entry of `builder.flat_questions` (builder.py lines 28-36). -/
structure BuilderQ where
  qtype : Option String
  label : Option String
  required : Bool
  sequence : Option Nat
  list_name : Option String
  original_name : String
  path : String
deriving DecidableEq, Repr

/-- One entry of `builder.repeat_groups` (builder.py lines 46-50). -/
structure BuilderG where
  label : Option String
  sequence : Option Nat
  path : String
deriving DecidableEq, Repr

/-- `XLSFormDataStructureBuilder._process_questions`. -/
def bProcessQuestions (qs : List (String × QData)) (pre : String)
    (acc : List (String × BuilderQ)) : List (String × BuilderQ) :=
  qs.foldl
    (fun acc nq =>
      let full := if pre = "" then nq.1 else pre ++ nq.1
      alistInsert acc full
        { qtype := nq.2.qtype, label := nq.2.label, required := nq.2.required.getD false,
          sequence := nq.2.seq, list_name := nq.2.list_name,
          original_name := nq.1, path := rstripSlash pre })
    acc

/-- `XLSFormDataStructureBuilder._process_groups`. -/
def bProcessGroups : List (String × GNode) → String →
    List (String × BuilderQ) → List (String × BuilderG) →
    List (String × BuilderQ) × List (String × BuilderG)
  | [], _, accQ, accG => (accQ, accG)
  | (n, .node glabel gseq grep gqs ggs) :: rest, pre, accQ, accG =>
    let full := if pre = "" then n else pre ++ n
    let newPre := full ++ "/"
    let accG1 :=
      if grep.getD false then
        alistInsert accG full { label := glabel, sequence := gseq, path := rstripSlash pre }
      else accG
    let accQ1 := bProcessQuestions gqs newPre accQ
    let r := bProcessGroups ggs newPre accQ1 accG1
    bProcessGroups rest pre r.1 r.2

/-- The two schema dicts an `XLSFormDataStructureBuilder` holds after
`_build_structure`. -/
structure Builder where
  flat_questions : List (String × BuilderQ)
  repeat_groups : List (String × BuilderG)
deriving DecidableEq, Repr

/-- `XLSFormDataStructureBuilder.__init__` / `_build_structure`. -/
def mkBuilder (x : XLSForm) : Builder :=
  let q0 := bProcessQuestions x.questions "" []
  let r := bProcessGroups x.groups "" q0 []
  { flat_questions := r.1, repeat_groups := r.2 }

/-- One entry of `_get_repeat_groups_hierarchy`'s result. -/
structure HierarchyG where
  simple_name : String
  level : Nat
  parent_path : Option String
  label : Option String
  sequence : Nat
deriving DecidableEq, Repr

/-- Python `'/'.join(name.split('/')[:-1]) if '/' in name else None`. -/
def parentPathOf (name : String) : Option String :=
  if strContains name '/' then
    some (String.intercalate "/" (pySplit name '/').dropLast)
  else none

/-- `_get_repeat_groups_hierarchy` (builder.py lines 308-326);
`level = group_name.count('/')`. -/
def getRepeatGroupsHierarchy (b : Builder) : List (String × HierarchyG) :=
  b.repeat_groups.foldl
    (fun acc ng =>
      alistInsert acc ng.1
        { simple_name := lastSegment ng.1, level := countSlashes ng.1,
          parent_path := parentPathOf ng.1,
          label := ng.2.label, sequence := ng.2.sequence.getD 0 })
    []

/-- The per-question assignment step of `_get_columns_by_level_dynamic`
(builder.py lines 337-356): first matching group in the hierarchy dict's
iteration order wins; no match falls back to the main table. -/
def assignColumn (hierarchy : List (String × HierarchyG))
    (cols : List (String × List String)) (q : BuilderQ) :
    List (String × List String) :=
  if q.path = "" then
    alistInsert cols "main" (alistGetD cols "main" [] ++ [q.original_name])
  else
    match hierarchy.find?
        (fun g => q.path == g.1 || strIsPrefixOf (g.1 ++ "/") q.path) with
    | some g =>
      alistInsert cols g.2.simple_name
        (alistGetD cols g.2.simple_name [] ++ [q.original_name])
    | none =>
      alistInsert cols "main" (alistGetD cols "main" [] ++ [q.original_name])

/-- `_get_columns_by_level_dynamic` (builder.py lines 328-358). -/
def getColumnsByLevelDynamic (b : Builder)
    (hierarchy : List (String × HierarchyG)) : List (String × List String) :=
  let cols : List (String × List String) := [("main", [])]
  let cols := hierarchy.foldl
    (fun acc hg => alistInsert acc hg.2.simple_name []) cols
  b.flat_questions.foldl (fun acc nq => assignColumn hierarchy acc nq.2) cols

/-- The hardcoded metadata column list of `create_dataframes_from_submissions`
(builder.py lines 268-272). -/
def builderMetadataColumns : List String :=
  ["_id", "formhub/uuid", "__version__", "meta/instanceID", "_xform_id_string",
   "_uuid", "meta/rootUuid", "_attachments", "_status", "_geolocation",
   "_submission_time", "_tags", "_notes", "_validation_status", "_submitted_by"]

/-- The main-row construction of `create_dataframes_from_submissions`
(builder.py lines 274-296): metadata columns, then the schema's main
columns, then every non-list submission field assigned unconditionally
under its last path segment. -/
def builderMainRow (allColumns : List (String × List String))
    (sub : Submission) : Row :=
  let row := builderMetadataColumns.foldl (fun r c => alistInsert r c none) []
  let row :=
    match alistGet? allColumns "main" with
    | some cols => cols.foldl (fun r c => alistInsert r c none) row
    | none => row
  sub.foldl
    (fun r kv =>
      match kv.2 with
      | .arr _ => r
      | v => alistInsert r (lastSegment kv.1) (some v))
    row

/-! ## exceptions.py -/
/-- The exception classes defined by exceptions.py, as
(class name, base class name) pairs. -/
def koboExceptionHierarchy : List (String × String) :=
  [("KoboAPIError", "Exception"),
   ("AuthenticationError", "KoboAPIError"),
   ("ResourceNotFoundError", "KoboAPIError"),
   ("DownloadError", "KoboAPIError")]

/-- The exception class names the package defines. -/
def koboExceptionNames : List String :=
  koboExceptionHierarchy.map Prod.fst

/-- Ordered-set insert on a key list: what `alistInsert` does to the keys. -/
def keyAdd (ks : List String) (k : String) : List String :=
  if ks.contains k then ks else ks ++ [k]

/-! ## Claim C3 inputs: level of a repeat group -/
/-- Number of strict repeat-group ancestors of `g` among the parsed repeat
groups: those whose fully-qualified name, extended by `/`, prefixes `g`'s
name (the notion of ancestry the claim counts). -/
def repeatAncestorCount (st : SurveyStructure) (g : RepeatGroup) : Nat :=
  (st.repeat_groups.filter (fun og => strIsPrefixOf (og.2.name ++ "/") g.name)).length

/-- C3 counterexample input: a non-repeat group `a` containing a repeat
group `b`; `b` has no repeat-group ancestor. -/
def xC3 : XLSForm :=
  { questions := [],
    groups := [("a", .node (some "A") none (some false) []
      [("b", .node (some "B") none (some true)
        [("q", ⟨none, none, none, none, none⟩)] [])])] }

/-- The repeat group the parser produces for `b` in `xC3`. -/
def gC3 : RepeatGroup :=
  { name := "a/b", label := "B", sequence := 0, path := "a", level := 1 }

/-! ## Claim C7 inputs: schema-error behavior -/
/-- C7 counterexample input: the nested repeat group `b` of repeat group
`a` has fully-qualified name `a/b`, and a second top-level repeat group is
literally keyed `a/b`, colliding with it. -/
def xC7 : XLSForm :=
  { questions := [],
    groups := [("a", .node (some "A") none (some true) []
      [("b", .node (some "inner") none (some true) [] [])]),
      ("a/b", .node (some "outer") none (some true) [] [])] }

/-! ## Claim C1 inputs: the row-count law -/
/-- Modelled from the spec (row-count law): the key looked up at each
nesting step is "the group's simple name at level 0; for nested groups, the
slash-joined compound key": the chain of consumed segments joined by `/`. -/
def joinKey (consumed p : String) : String :=
  if consumed = "" then p else consumed ++ "/" ++ p

/-- Modelled from the spec (row-count law): the number of rows the claim
demands for a group whose fully-qualified name has the given segments —
the summed length of the instance arrays found at the group's key inside
each parent element, 0 when a key is absent or its array empty. -/
def claimCount : Submission → String → List String → Nat
  | _, _, [] => 0
  | obj, consumed, [p] => (getItemList obj (joinKey consumed p)).length
  | obj, consumed, p :: rest =>
    ((getItemList obj (joinKey consumed p)).map
      (fun el => claimCount el (joinKey consumed p) rest)).sum

/-- C1 counterexample input: three nested repeat groups `a ⊃ b ⊃ c`, with
one question inside `c`. -/
def xC1 : XLSForm :=
  { questions := [],
    groups := [("a", .node none none (some true) []
      [("b", .node none none (some true) []
        [("c", .node none none (some true)
          [("q", ⟨none, none, none, none, none⟩)] [])])])] }

/-- The structure the parser produces for `xC1`. -/
def stC1 : SurveyStructure :=
  { questions := [("a/b/c/q",
      { name := "a/b/c/q", type := "", label := "q", sequence := 3,
        required := false, list_name := none, path := "a/b/c" })],
    repeat_groups :=
      [("a", { name := "a", label := "a", sequence := 0, path := "", level := 0 }),
       ("a/b", { name := "a/b", label := "b", sequence := 1, path := "a", level := 1 }),
       ("a/b/c", { name := "a/b/c", label := "c", sequence := 2, path := "a/b",
                   level := 2 })] }

/-- The level-2 repeat group of `stC1`. -/
def gC1 : RepeatGroup :=
  { name := "a/b/c", label := "c", sequence := 2, path := "a/b", level := 2 }

/-- A submission holding exactly one instance of the level-2 group. -/
def subC1 : Submission :=
  [("_id", .prim (.s "S")),
   ("a", .arr [[("a/b", .arr [[("a/b/c", .arr [[("a/b/c/q", .prim (.i 7))]])]])]])]

/-- The level-1 repeat group of `stC1`. -/
def gC1b : RepeatGroup :=
  { name := "a/b", label := "b", sequence := 1, path := "a", level := 1 }

/-! ## Claim C2 inputs: synthetic linkage ids at level 1 -/
/-- A level-1 repeat group used by the C2 witness:
`g2` nested in repeat group `g1`. -/
def gW2 : RepeatGroup :=
  { name := "g1/g2", label := "g2", sequence := 1, path := "g1", level := 1 }

/-- Structure owning `gW2` and one question inside it. -/
def stW2 : SurveyStructure :=
  { questions := [("g1/g2/name",
      { name := "g1/g2/name", type := "text", label := "name", sequence := 2,
        required := false, list_name := none, path := "g1/g2" })],
    repeat_groups :=
      [("g1", { name := "g1", label := "g1", sequence := 0, path := "", level := 0 }),
       ("g1/g2", gW2)] }

/-- Submission `S1` with three `g1` instances; only the one at 0-based
index 2 holds a `g1/g2` instance. -/
def subW2 : Submission :=
  [("_id", .prim (.s "S1")),
   ("g1", .arr [[], [],
     [("g1/g2", .arr [[("g1/g2/name", .prim (.s "Ana"))]])]])]

/-- The single row the processor builds for `gW2` from `subW2`. -/
def rowW2 : Row :=
  [("_parent_id", some (.prim (.s "S1"))),
   ("_g1_id", some (.prim (.s "S1_3"))),
   ("name", some (.prim (.s "Ana")))]

/-! ## Claim C9 inputs: empty input and zero-row tables -/
/-- A structure with one level-0 repeat group `members`. -/
def stC9 : SurveyStructure :=
  { questions := [],
    repeat_groups := [("members",
      { name := "members", label := "members", sequence := 0, path := "", level := 0 })] }

/-- A submission with no `members` key at all. -/
def subC9a : Submission := [("_id", .prim (.s "S"))]

/-- A submission with one (empty-object) `members` instance. -/
def subC9b : Submission := [("_id", .prim (.s "S")), ("members", .arr [[]])]

/-- The main table `process_submissions stC9 [subC9b]` produces. -/
def tC9 : List Row :=
  [[("_id", some (.prim (.s "S"))), ("__version__", none),
    ("_xform_id_string", none), ("_uuid", none), ("_attachments", none),
    ("_status", none), ("_geolocation", none), ("_submission_time", none),
    ("_tags", none), ("_notes", none), ("_validation_status", none),
    ("_submitted_by", none)]]

/-! ## Claim C6 inputs: output table order -/
/-- Two level-0 repeat groups whose declared sequences invert their
registration order: `ga` (sequence 100) is registered before `gb`
(sequence 5). -/
def gaC6 : RepeatGroup :=
  { name := "ga", label := "ga", sequence := 100, path := "", level := 0 }

/-- See `gaC6`. -/
def gbC6 : RepeatGroup :=
  { name := "gb", label := "gb", sequence := 5, path := "", level := 0 }

/-- Structure registering `ga` before `gb`, with one question each. -/
def stC6 : SurveyStructure :=
  { questions :=
      [("ga/qa",
        { name := "ga/qa", type := "integer", label := "qa", sequence := 1,
          required := false, list_name := none, path := "ga" }),
       ("gb/qb",
        { name := "gb/qb", type := "integer", label := "qb", sequence := 3,
          required := false, list_name := none, path := "gb" })],
    repeat_groups := [("ga", gaC6), ("gb", gbC6)] }

/-- A submission populating both groups. -/
def subC6 : Submission :=
  [("_id", .prim (.s "S")),
   ("ga", .arr [[("ga/qa", .prim (.i 1))]]),
   ("gb", .arr [[("gb/qb", .prim (.i 2))]])]

/-! ## Claim C5 inputs: fixed column sets -/
/-- The main-table column set fixed at schema-build time: metadata columns
plus the `original_name` of every root-path question (dict-deduplicated). -/
def fixed_main_columns (st : SurveyStructure) : List String :=
  alistKeys (initialize_row (st.get_questions_by_path ""))

/-- The column set of a repeat group's table, fixed at schema-build time:
its synthetic linkage columns plus the `original_name` of every question
assigned to it. -/
def fixed_repeat_columns (st : SurveyStructure) (g : RepeatGroup) : List String :=
  if g.level = 0 then
    alistKeys (initialize_row_for_group (alistInsert [] "_parent_id" none)
      (groupQuestions st g))
  else
    match pySplit g.name '/' with
    | p0 :: _ :: _ =>
      alistKeys (initialize_row_for_group
        (alistInsert (alistInsert [] "_parent_id" none) ("_" ++ p0 ++ "_id") none)
        (groupQuestions st g))
    | _ => []

/-- C5 builder-side counterexample input: one declared question `age`. -/
def xC5 : XLSForm :=
  { questions := [("age", ⟨some "integer", some "Age", some 0, none, none⟩)],
    groups := [] }

/-- The builder `XLSFormDataStructureBuilder(xC5)` constructs. -/
def builderC5 : Builder :=
  { flat_questions := [("age",
      { qtype := some "integer", label := some "Age", required := false,
        sequence := some 0, list_name := none, original_name := "age",
        path := "" })],
    repeat_groups := [] }

/-- The schema-fixed column map of `builderC5`. -/
def allColumnsC5 : List (String × List String) :=
  getColumnsByLevelDynamic builderC5 (getRepeatGroupsHierarchy builderC5)

/-- A submission with the undeclared scalar field `foo`. -/
def subC5 : Submission := [("_id", .prim (.s "S")), ("foo", .prim (.i 1))]

/-- The question of `stC1`, nested two repeat levels deep. -/
def qC4 : Question :=
  { name := "a/b/c/q", type := "", label := "q", sequence := 3,
    required := false, list_name := none, path := "a/b/c" }

/-- The outermost (level-0) repeat group of `stC1` — a strict ancestor of
the deepest group matching `qC4`. -/
def gC4a : RepeatGroup :=
  { name := "a", label := "a", sequence := 0, path := "", level := 0 }

/-! ## Claim C10: the parser's running sequence counter

To reason about two consecutive `parse()` calls, the parser is compared
with accumulator-free emission functions (`emitQ` / `emitG`): when no two
nodes collide on a fully-qualified name, every dict insert is an append and
parsing equals emission. -/
/-- Accumulator-free mirror of `parseQuestions`. -/
def emitQ : List (String × QData) → String → Nat →
    List (String × Question) × Nat
  | [], _, c => ([], c)
  | (n, qd) :: rest, pre, c =>
    let full := if pre = "" then n else pre ++ n
    let q : Question :=
      { name := full, type := qd.qtype.getD "", label := qd.label.getD n,
        sequence := qd.seq.getD c, required := qd.required.getD false,
        list_name := qd.list_name, path := rstripSlash pre }
    let r := emitQ rest pre (c + 1)
    ((full, q) :: r.1, r.2)

/-- Accumulator-free mirror of `parseGroups`. -/
def emitG : List (String × GNode) → String → Nat →
    List (String × Question) × List (String × RepeatGroup) × Nat
  | [], _, c => ([], [], c)
  | (n, .node glabel gseq grep gqs ggs) :: rest, pre, c =>
    let full := if pre = "" then n else pre ++ n
    let newPre := full ++ "/"
    let step : List (String × RepeatGroup) × Nat :=
      if grep.getD false then
        ([(full, { name := full, label := glabel.getD n, sequence := gseq.getD c,
                   path := rstripSlash pre, level := countSlashes full })], c + 1)
      else ([], c)
    let q1 := emitQ gqs newPre step.2
    let g1 := emitG ggs newPre q1.2
    let r1 := emitG rest pre g1.2.2
    (q1.1 ++ g1.1 ++ r1.1, step.1 ++ g1.2.1 ++ r1.2.1, r1.2.2)

/-- Accumulator-free mirror of a whole `parse()` run. -/
def emitForm (x : XLSForm) (c : Nat) :
    List (String × Question) × List (String × RepeatGroup) × Nat :=
  ((emitQ x.questions "" c).1 ++ (emitG x.groups "" (emitQ x.questions "" c).2).1,
   (emitG x.groups "" (emitQ x.questions "" c).2).2.1,
   (emitG x.groups "" (emitQ x.questions "" c).2).2.2)

/-- Number of counter increments a subtree causes: its questions plus its
repeat groups. -/
def countQG : List (String × GNode) → Nat
  | [] => 0
  | (_, .node _ _ grep gqs ggs) :: rest =>
    (if grep.getD false then 1 else 0) + gqs.length + countQG ggs + countQG rest

/-- Does some question or repeat group of the subtree omit an explicit
`sequence` (and hence receive the running counter as fallback)? -/
def gnodesHaveFallback : List (String × GNode) → Bool
  | [] => false
  | (_, .node _ gseq grep gqs ggs) :: rest =>
    (grep.getD false && gseq.isNone) || gqs.any (fun q => q.2.seq.isNone) ||
      gnodesHaveFallback ggs || gnodesHaveFallback rest

/-- Does the form contain a question or repeat group omitting `sequence`? -/
def xlsHasFallback (x : XLSForm) : Bool :=
  x.questions.any (fun q => q.2.seq.isNone) || gnodesHaveFallback x.groups

/-- C10 counterexample input: the top-level question keyed `g/a` (which
omits `sequence`) collides with the question `a` of non-repeat group `g`
(fully-qualified name also `g/a`, explicit sequence 5): the later entry
overwrites the earlier in both runs. -/
def xC10 : XLSForm :=
  { questions := [("g/a", ⟨none, some "x", none, none, none⟩)],
    groups := [("g", .node none none (some false)
      [("a", ⟨none, some "x", some 5, none, none⟩)] [])] }

/-- C10 amended witness input: a single question omitting `sequence`, no
collisions. -/
def xC10w : XLSForm :=
  { questions := [("age", ⟨none, none, none, none, none⟩)], groups := [] }

/-! ## Generic lemmas about the dict and string models -/
theorem alistGet?_insert {α : Type} (l : List (String × α)) (k k' : String) (v : α) :
    alistGet? (alistInsert l k v) k' = if k' = k then some v else alistGet? l k' := by
  induction l with
  | nil =>
    simp only [alistInsert, alistGet?]
    split_ifs <;> simp_all
  | cons h t ih =>
    obtain ⟨hk, hv⟩ := h
    by_cases e : hk = k
    · subst e
      simp only [alistInsert, if_pos rfl, alistGet?]
      split_ifs <;> first | rfl | simp_all
    · simp only [alistInsert, if_neg e, alistGet?, ih]
      split_ifs <;> first | rfl | simp_all

theorem alistMem_eq_contains {α : Type} (l : List (String × α)) (k : String) :
    alistMem l k = (alistKeys l).contains k := by
  induction l with
  | nil => simp [alistMem, alistGet?, alistKeys]
  | cons h t ih =>
    obtain ⟨hk, hv⟩ := h
    by_cases e : hk = k
    · subst e
      simp [alistMem, alistGet?, alistKeys]
    · have hbe : (k == hk) = false := by simp [Ne.symm e]
      simp only [alistMem, alistGet?, alistKeys, List.map_cons, List.contains_cons,
        if_neg e, hbe, Bool.false_or] at *
      exact ih

theorem alistKeys_insert {α : Type} (l : List (String × α)) (k : String) (v : α) :
    alistKeys (alistInsert l k v) = keyAdd (alistKeys l) k := by
  induction l with
  | nil => simp [alistInsert, alistKeys, keyAdd]
  | cons h t ih =>
    obtain ⟨hk, hv⟩ := h
    by_cases e : hk = k
    · subst e
      simp [alistInsert, alistKeys, keyAdd]
    · have hbe : (k == hk) = false := by simp [Ne.symm e]
      simp only [alistInsert, if_neg e]
      have h1 : alistKeys ((hk, hv) :: alistInsert t k v) =
          hk :: alistKeys (alistInsert t k v) := rfl
      have h2 : alistKeys ((hk, hv) :: t) = hk :: alistKeys t := rfl
      rw [h1, h2, ih]
      simp only [keyAdd, List.contains_cons, hbe, Bool.false_or]
      cases hc : (alistKeys t).contains k <;> simp [hc]

theorem alistKeys_insert_of_mem {α : Type} (l : List (String × α)) (k : String)
    (v : α) (h : alistMem l k = true) :
    alistKeys (alistInsert l k v) = alistKeys l := by
  rw [alistKeys_insert, keyAdd, if_pos]
  rw [alistMem_eq_contains] at h
  exact h

theorem alistInsert_ne_nil {α : Type} (l : List (String × α)) (k : String) (v : α) :
    alistInsert l k v ≠ [] := by
  cases l with
  | nil => simp [alistInsert]
  | cons h t =>
    obtain ⟨hk, hv⟩ := h
    by_cases e : hk = k <;> simp [alistInsert, e]

theorem alistGet?_isSome_of_keys {α : Type} (l : List (String × α)) (k : String)
    (h : (alistKeys l).contains k = true) : (alistGet? l k).isSome := by
  rw [← alistMem_eq_contains] at h
  exact h

/-- Keys of a fold of inserts depend only on the initial keys. -/
theorem foldl_insert_keys {α β : Type} (f : β → String) (g : β → α) :
    ∀ (l : List β) (r : List (String × α)),
    alistKeys (l.foldl (fun r b => alistInsert r (f b) (g b)) r) =
      l.foldl (fun ks b => keyAdd ks (f b)) (alistKeys r) := by
  intro l
  induction l with
  | nil => intro r; rfl
  | cons b t ih =>
    intro r
    simp only [List.foldl_cons, ih, alistKeys_insert]

/-- A fold of inserts whose keys all differ from `k` leaves `k`'s binding
unchanged. -/
theorem foldl_insert_get_ne {α β : Type} (f : β → String) (g : β → α) (k : String) :
    ∀ (l : List β) (r : List (String × α)), (∀ b ∈ l, f b ≠ k) →
    alistGet? (l.foldl (fun r b => alistInsert r (f b) (g b)) r) k = alistGet? r k := by
  intro l
  induction l with
  | nil => intro r _; rfl
  | cons b t ih =>
    intro r h
    simp only [List.foldl_cons]
    rw [ih _ (fun b hb => h b (List.mem_cons_of_mem _ hb)), alistGet?_insert,
      if_neg (Ne.symm (h b (List.mem_cons_self b t)))]

theorem foldl_insert_ne_nil {α β : Type} (f : β → String) (g : β → α) :
    ∀ (l : List β) (r : List (String × α)), r ≠ [] →
    l.foldl (fun r b => alistInsert r (f b) (g b)) r ≠ [] := by
  intro l
  induction l with
  | nil => intro r h; exact h
  | cons b t ih =>
    intro r _
    simp only [List.foldl_cons]
    exact ih _ (alistInsert_ne_nil _ _ _)

theorem splitCh_ne_nil (c : Char) : ∀ l : List Char, splitCh c l ≠ [] := by
  intro l
  induction l with
  | nil => simp [splitCh]
  | cons x xs ih =>
    by_cases e : x = c
    · simp [splitCh, e]
    · simp only [splitCh, if_neg e]
      cases h : splitCh c xs with
      | nil => exact absurd h ih
      | cons a t => simp

theorem splitCh_length (c : Char) :
    ∀ l : List Char, (splitCh c l).length = l.count c + 1 := by
  intro l
  induction l with
  | nil => simp [splitCh]
  | cons x xs ih =>
    by_cases e : x = c
    · subst e
      simp [splitCh, List.count_cons, ih]
    · simp only [splitCh, if_neg e]
      cases h : splitCh c xs with
      | nil => exact absurd h (splitCh_ne_nil c xs)
      | cons a t =>
        simp only [h, List.length_cons] at ih
        have : (x == c) = false := by simp [e]
        simp [List.count_cons, this, ih]

theorem splitCh_of_count_zero (c : Char) :
    ∀ l : List Char, l.count c = 0 → splitCh c l = [l] := by
  intro l
  induction l with
  | nil => intro _; rfl
  | cons x xs ih =>
    intro h
    simp only [List.count_cons] at h
    by_cases e : x = c
    · simp [e] at h
    · have hb : (x == c) = false := by simp [e]
      rw [hb] at h
      simp only [Bool.false_eq_true, if_false, Nat.add_zero] at h
      simp [splitCh, if_neg e, ih h]

theorem string_mk_toList (s : String) : String.mk s.toList = s := rfl

theorem pySplit_length (s : String) :
    (pySplit s '/').length = countSlashes s + 1 := by
  simp [pySplit, countSlashes, splitCh_length]

theorem pySplit_of_no_slash (s : String) (h : countSlashes s = 0) :
    pySplit s '/' = [s] := by
  unfold pySplit
  rw [splitCh_of_count_zero '/' s.toList h]
  simp [string_mk_toList]

theorem lastSegment_of_no_slash (s : String) (h : countSlashes s = 0) :
    lastSegment s = s := by
  unfold lastSegment
  by_cases hc : strContains s '/'
  · rw [if_pos hc, pySplit_of_no_slash s h]
    rfl
  · rw [if_neg hc]

/-! ## Lemmas about the row operations -/
theorem fill_row_data_keys :
    ∀ (data : Submission) (row : Row),
    alistKeys (fill_row_data row data) = alistKeys row := by
  intro data
  induction data with
  | nil => intro row; rfl
  | cons kv rest ih =>
    intro row
    obtain ⟨k, v⟩ := kv
    cases v with
    | arr l => exact ih row
    | prim p =>
      simp only [fill_row_data]
      cases hm : alistMem row (lastSegment k) with
      | false => simp only [hm, Bool.false_eq_true, if_false]; exact ih row
      | true =>
        simp only [hm, if_true]
        rw [ih, alistKeys_insert_of_mem _ _ _ hm]

theorem fill_row_data_get_ne :
    ∀ (data : Submission) (row : Row) (k : String),
    (∀ kv ∈ data, lastSegment kv.1 ≠ k) →
    alistGet? (fill_row_data row data) k = alistGet? row k := by
  intro data
  induction data with
  | nil => intro row k _; rfl
  | cons kv rest ih =>
    intro row k h
    obtain ⟨kk, v⟩ := kv
    have hk : lastSegment kk ≠ k := h (kk, v) (List.mem_cons_self _ _)
    have hrest : ∀ kv ∈ rest, lastSegment kv.1 ≠ k :=
      fun kv hkv => h kv (List.mem_cons_of_mem _ hkv)
    cases v with
    | arr l => exact ih row k hrest
    | prim p =>
      simp only [fill_row_data]
      cases hm : alistMem row (lastSegment kk) with
      | false => simp only [hm, Bool.false_eq_true, if_false]; exact ih row k hrest
      | true =>
        simp only [hm, if_true]
        rw [ih _ k hrest, alistGet?_insert, if_neg (Ne.symm hk)]

theorem fill_row_data_ne_nil (data : Submission) (row : Row) (h : row ≠ []) :
    fill_row_data row data ≠ [] := by
  intro hc
  have hk := fill_row_data_keys data row
  rw [hc] at hk
  have : row = [] := by
    cases row with
    | nil => rfl
    | cons a t => simp [alistKeys] at hk
  exact h this

theorem initialize_row_for_group_keys (row : Row) (qs : List (String × Question)) :
    alistKeys (initialize_row_for_group row qs) =
      qs.foldl (fun ks nq => keyAdd ks nq.2.original_name) (alistKeys row) := by
  unfold initialize_row_for_group
  exact foldl_insert_keys (fun nq => nq.2.original_name) (fun _ => none) qs row

theorem initialize_row_keys (qs : List (String × Question)) :
    alistKeys (initialize_row qs) =
      qs.foldl (fun ks nq => keyAdd ks nq.2.original_name)
        (METADATA_COLUMNS.foldl (fun ks c => keyAdd ks c) []) := by
  unfold initialize_row
  have h1 := foldl_insert_keys (fun (nq : String × Question) => nq.2.original_name)
    (fun _ => (none : Cell)) qs
    (METADATA_COLUMNS.foldl (fun r col => alistInsert r col none) [])
  have h2 := foldl_insert_keys (fun (c : String) => c) (fun _ => (none : Cell))
    METADATA_COLUMNS []
  exact h1.trans
    (congrArg (fun z => qs.foldl (fun ks nq => keyAdd ks nq.2.original_name) z) h2)

theorem initialize_row_ne_nil (qs : List (String × Question)) :
    initialize_row qs ≠ [] := by
  unfold initialize_row
  have hbase : METADATA_COLUMNS.foldl (fun r col => alistInsert r col none) ([] : Row) ≠ [] := by
    decide
  exact foldl_insert_ne_nil (fun nq => nq.2.original_name) (fun _ => none) qs _ hbase

/-! ## Lemmas about the schema parser -/
theorem mem_alistInsert {α : Type} (l : List (String × α)) (k : String) (v : α)
    (e : String × α) : e ∈ alistInsert l k v → e = (k, v) ∨ e ∈ l := by
  induction l with
  | nil =>
    intro h
    simpa [alistInsert] using h
  | cons hd t ih =>
    obtain ⟨hk, hv⟩ := hd
    intro h
    by_cases eq : hk = k
    · subst eq
      have hm : e ∈ (hk, v) :: t := by simpa [alistInsert] using h
      rcases List.mem_cons.mp hm with h1 | h2
      · exact Or.inl h1
      · exact Or.inr (List.mem_cons_of_mem _ h2)
    · simp only [alistInsert, if_neg eq, List.mem_cons] at h
      rcases h with h1 | h2
      · exact Or.inr (h1 ▸ List.mem_cons_self _ _)
      · rcases ih h2 with h3 | h4
        · exact Or.inl h3
        · exact Or.inr (List.mem_cons_of_mem _ h4)

theorem keyAdd_nodup (ks : List String) (k : String) (h : ks.Nodup) :
    (keyAdd ks k).Nodup := by
  unfold keyAdd
  split_ifs with hc
  · exact h
  · have hnm : k ∉ ks := by simpa using hc
    simp [List.nodup_append, h, hnm]

/-- Every repeat group the parser ever inserts satisfies `P`; then so does
every entry of the output group dict (given the accumulator did). -/
theorem parseGroups_preserves (P : String × RepeatGroup → Prop)
    (hnew : ∀ (full lab : String) (s : Nat) (pa : String),
      P (full, { name := full, label := lab, sequence := s, path := pa,
                 level := countSlashes full })) :
    ∀ (gs : List (String × GNode)) (pre : String)
      (accQ : List (String × Question)) (accG : List (String × RepeatGroup))
      (c : Nat), (∀ e ∈ accG, P e) →
    ∀ e ∈ (parseGroups gs pre accQ accG c).2.1, P e
  | [], _, _, _, _, hacc => by
    simpa [parseGroups] using hacc
  | (n, .node glabel gseq grep gqs ggs) :: rest, pre, accQ, accG, c, hacc => by
    rw [parseGroups]
    apply parseGroups_preserves P hnew rest
    apply parseGroups_preserves P hnew ggs
    intro e he
    by_cases hrep : grep.getD false
    · simp only [hrep, if_true] at he
      rcases mem_alistInsert _ _ _ _ he with h | h
      · subst h; exact hnew _ _ _ _
      · exact hacc _ h
    · simp only [hrep] at he
      exact hacc _ he

theorem parseQuestions_nodup :
    ∀ (qs : List (String × QData)) (pre : String)
      (acc : List (String × Question)) (c : Nat),
    (alistKeys acc).Nodup → (alistKeys (parseQuestions qs pre acc c).1).Nodup
  | [], _, _, _, h => h
  | (n, qd) :: rest, pre, acc, c, h => by
    rw [parseQuestions]
    apply parseQuestions_nodup rest
    rw [alistKeys_insert]
    exact keyAdd_nodup _ _ h

theorem parseGroups_nodup :
    ∀ (gs : List (String × GNode)) (pre : String)
      (accQ : List (String × Question)) (accG : List (String × RepeatGroup))
      (c : Nat),
    (alistKeys accQ).Nodup → (alistKeys accG).Nodup →
    (alistKeys (parseGroups gs pre accQ accG c).1).Nodup ∧
      (alistKeys (parseGroups gs pre accQ accG c).2.1).Nodup
  | [], _, _, _, _, hq, hg => by
    rw [parseGroups]
    exact ⟨hq, hg⟩
  | (n, .node glabel gseq grep gqs ggs) :: rest, pre, accQ, accG, c, hq, hg => by
    rw [parseGroups]
    apply parseGroups_nodup rest
    · exact (parseGroups_nodup ggs _ _ _ _ (parseQuestions_nodup gqs _ _ _ hq)
        (by
          by_cases hrep : grep.getD false
          · simp only [hrep, if_true]
            rw [alistKeys_insert]
            exact keyAdd_nodup _ _ hg
          · simpa [hrep] using hg)).1
    · exact (parseGroups_nodup ggs _ _ _ _ (parseQuestions_nodup gqs _ _ _ hq)
        (by
          by_cases hrep : grep.getD false
          · simp only [hrep, if_true]
            rw [alistKeys_insert]
            exact keyAdd_nodup _ _ hg
          · simpa [hrep] using hg)).2

/-- C3: counterexample.  Parsing `xC3` yields the repeat group `a/b` with
`level = 1`, although it has zero repeat-group ancestors (its only ancestor
`a` is a non-repeat group), so `level` is not the number of repeat-group
ancestors, and a repeat group nested only inside a non-repeat group does
not have level 0. -/
theorem C3_counterexample :
    alistGet? (parseXLSForm xC3).repeat_groups "a/b" = some gC3 ∧
    gC3.level = 1 ∧
    repeatAncestorCount (parseXLSForm xC3) gC3 = 0 := by
  refine ⟨?_, by decide, ?_⟩ <;>
    (simp only [parseXLSForm, parseFrom, parseLevel, parseQuestions, parseGroups, xC3];
     decide)

/-- C3 (amended): the `level` field of every repeat group produced by
schema parsing equals the number of `/`-separated ancestor segments of its
fully-qualified name — i.e. the number of enclosing groups of any kind,
repeat or not — rather than the number of repeat-group ancestors. -/
theorem C3_amended (x : XLSForm) (e : String × RepeatGroup)
    (h : e ∈ (parseXLSForm x).repeat_groups) :
    e.2.level = countSlashes e.2.name := by
  unfold parseXLSForm parseFrom parseLevel at h
  exact parseGroups_preserves (fun e => e.2.level = countSlashes e.2.name)
    (fun _ _ _ _ => rfl) x.groups "" _ [] _ (by intro e he; cases he) e h

/-- C3 amended witness: the counterexample group of `xC3` indeed carries
level `countSlashes "a/b" = 1`. -/
theorem C3_amended_witness :
    ("a/b", gC3) ∈ (parseXLSForm xC3).repeat_groups ∧
    gC3.level = countSlashes "a/b" := by
  have hm : ("a/b", gC3) ∈ (parseXLSForm xC3).repeat_groups := by
    simp only [parseXLSForm, parseFrom, parseLevel, parseQuestions, parseGroups, xC3]
    decide
  exact ⟨hm, C3_amended xC3 ("a/b", gC3) hm⟩

/-- C7: counterexample.  On a schema whose repeat-group fully-qualified
names collide, `StructureParser.parse` does not fail: it returns a
`SurveyStructure` in which the later `a/b` group has silently overwritten
the earlier one (keeping its dict position), and no `SchemaError` class
exists in the package's exception hierarchy at all. -/
theorem C7_counterexample :
    (parseXLSForm xC7).repeat_groups =
      [("a", { name := "a", label := "A", sequence := 0, path := "", level := 0 }),
       ("a/b", { name := "a/b", label := "outer", sequence := 2, path := "",
                 level := 1 })] ∧
    "SchemaError" ∉ koboExceptionNames := by
  refine ⟨?_, by decide⟩
  simp only [parseXLSForm, parseFrom, parseLevel, parseQuestions, parseGroups, xC7]
  decide

theorem length_flatMap {α β : Type} (l : List α) (f : α → List β) :
    (l.flatMap f).length = (l.map (fun a => (f a).length)).sum := by
  induction l with
  | nil => rfl
  | cons a t ih => simp [List.flatMap_cons, ih]

theorem enum_map_compose_snd {α β : Type} (l : List α) (h : α → β) :
    l.enum.map (fun ip => h ip.2) = l.map h :=
  calc l.enum.map (fun ip => h ip.2) = l.enum.map (h ∘ Prod.snd) := rfl
    _ = (l.enum.map Prod.snd).map h := (List.map_map _ _ _).symm
    _ = l.map h := by rw [List.enum_map_snd]

/-- Row count of the two-segment nested extraction: one row per element of
the inner array of each outer element. -/
theorem extract_nested_two_length (sub : Submission)
    (q : List (String × Question)) (subId : JVal) (p0 p1 : String) :
    (extract_nested_repeat_data sub [p0, p1] q subId).length =
      ((getItemList sub p0).map
        (fun el => (getItemList el (p0 ++ "/" ++ p1)).length)).sum := by
  unfold extract_nested_repeat_data
  rw [length_flatMap]
  simp only [List.isEmpty_nil, if_true, List.length_map]
  rw [enum_map_compose_snd (getItemList sub p0)
    (fun el => (getItemList el (p0 ++ "/" ++ p1)).length)]

/-- Deeper-than-two extraction produces nothing. -/
theorem extract_nested_deep_nil (sub : Submission)
    (q : List (String × Question)) (subId : JVal) (p0 p1 r0 : String)
    (rest : List String) :
    extract_nested_repeat_data sub (p0 :: p1 :: r0 :: rest) q subId = [] := by
  unfold extract_nested_repeat_data
  simp

/-- C1 (amended): for a repeat group whose fully-qualified name has one or
two segments (level 0 or 1), the number of rows in its table equals the
spec's sum of instance-array lengths over all submissions, the key being
the simple name at level 0 and the slash-joined compound key inside each
parent element at level 1, with absent or empty keys contributing zero
rows and never an error; but a group with three or more segments
(level 2 or deeper, which the schema parser happily produces) contributes
zero rows regardless of the data. -/
theorem C1_amended (st : SurveyStructure) (g : RepeatGroup)
    (subs : List Submission) (parts : List String)
    (hsplit : pySplit g.name '/' = parts)
    (hlev : g.level + 1 = parts.length)
    (hhead : parts.headD "" ≠ "") :
    (create_repeat_dataframe st subs g).length =
      if parts.length ≤ 2 then (subs.map (fun sub => claimCount sub "" parts)).sum
      else 0 := by
  unfold create_repeat_dataframe
  rw [length_flatMap]
  match parts, hsplit, hlev, hhead with
  | [], _, hlev, _ => simp at hlev
  | [p], hsplit, hlev, _ =>
    have hslash : countSlashes g.name = 0 := by
      have := pySplit_length g.name
      rw [hsplit] at this
      simpa using this.symm
    have hp : p = g.name := by
      have := pySplit_of_no_slash g.name hslash
      rw [hsplit] at this
      exact (List.cons.injEq _ _ _ _).mp this |>.1
    have hlev0 : g.level = 0 := by
      have hlev1 : g.level + 1 = 1 := by simpa using hlev
      omega
    rw [if_pos (show ([p] : List String).length ≤ 2 by simp)]
    have hpoint : ∀ sub : Submission,
        (extract_repeat_data sub g (groupQuestions st g) (getSubmissionId sub)).length =
          claimCount sub "" [p] := by
      intro sub
      unfold extract_repeat_data
      rw [if_pos hlev0, List.length_map]
      rw [show g.simple_name = g.name from lastSegment_of_no_slash _ hslash]
      subst hp
      unfold claimCount joinKey
      simp
    simp only [hpoint]
  | p0 :: p1 :: rest, hsplit, hlev, hhead =>
    have hlevpos : g.level ≠ 0 := by
      simp only [List.length_cons] at hlev
      omega
    have hp0 : p0 ≠ "" := by simpa using hhead
    cases rest with
    | cons r0 rrest =>
      rw [if_neg (show ¬ (p0 :: p1 :: r0 :: rrest).length ≤ 2 by simp)]
      have hpoint : ∀ sub : Submission,
          (extract_repeat_data sub g (groupQuestions st g) (getSubmissionId sub)).length = 0 := by
        intro sub
        unfold extract_repeat_data
        rw [if_neg hlevpos, hsplit, extract_nested_deep_nil]
        rfl
      simp [hpoint]
    | nil =>
      rw [if_pos (show ([p0, p1] : List String).length ≤ 2 by simp)]
      have hj0 : joinKey "" p0 = p0 := by
        unfold joinKey
        rw [if_pos rfl]
      have hj1 : joinKey p0 p1 = p0 ++ "/" ++ p1 := by
        unfold joinKey
        rw [if_neg hp0]
      have hcc : ∀ el : Submission,
          claimCount el p0 [p1] = (getItemList el (p0 ++ "/" ++ p1)).length := by
        intro el
        unfold claimCount
        rw [hj1]
      have hpoint : ∀ sub : Submission,
          (extract_repeat_data sub g (groupQuestions st g) (getSubmissionId sub)).length =
            claimCount sub "" [p0, p1] := by
        intro sub
        unfold extract_repeat_data
        rw [if_neg hlevpos, hsplit, extract_nested_two_length]
        unfold claimCount
        rw [hj0]
        simp only [hcc]
      simp only [hpoint]

/-- C1: counterexample.  The schema allows the level-2 repeat group
`a/b/c`, and `subC1` holds exactly one instance of it (the claim's sum of
instance-array lengths is 1), yet `DataProcessor` produces zero rows for
that group: the row-count law fails at nesting level 2. -/
theorem C1_counterexample :
    parseXLSForm xC1 = stC1 ∧
    alistGet? stC1.repeat_groups "a/b/c" = some gC1 ∧
    claimCount subC1 "" (pySplit gC1.name '/') = 1 ∧
    create_repeat_dataframe stC1 [subC1] gC1 = [] := by
  refine ⟨?_, by decide, by decide, by decide⟩
  simp only [parseXLSForm, parseFrom, parseLevel, parseQuestions, parseGroups, xC1]
  decide

/-- C1 amended witness: for the level-1 group `a/b` of `stC1` the
row count equals the claimed sum (here 1) on `subC1`. -/
theorem C1_amended_witness :
    pySplit gC1b.name '/' = ["a", "b"] ∧
    gC1b.level + 1 = (["a", "b"] : List String).length ∧
    (["a", "b"] : List String).headD "" ≠ "" ∧
    (create_repeat_dataframe stC1 [subC1] gC1b).length =
      if (["a", "b"] : List String).length ≤ 2 then
        ([subC1].map (fun sub => claimCount sub "" ["a", "b"])).sum
      else 0 :=
  ⟨by decide, by decide, by decide,
   C1_amended stC1 gC1b [subC1] ["a", "b"] (by decide) (by decide) (by decide)⟩

/-- C2: every row of a level-1 repeat table carries
`_parent_id` = the submission's id and `_{ancestor}_id` = the id string
`"{submissionId}_{i+1}"` of the ancestor element (0-based index `i`) it was
extracted from — provided, per the submission and schema contracts, that no
raw data field and no question column collides with the two synthetic
linkage column names (and the ancestor is not itself named `parent`). -/
theorem C2_theorem (st : SurveyStructure) (g : RepeatGroup)
    (subs : List Submission) (p0 p1 : String)
    (hsplit : pySplit g.name '/' = [p0, p1])
    (hlevpos : g.level ≠ 0)
    (hid : "_" ++ p0 ++ "_id" ≠ "_parent_id")
    (hq : ∀ nq ∈ groupQuestions st g,
      nq.2.original_name ≠ "_parent_id" ∧ nq.2.original_name ≠ "_" ++ p0 ++ "_id")
    (hdata : ∀ sub ∈ subs, ∀ firstItem ∈ getItemList sub p0,
      ∀ secondItem ∈ getItemList firstItem (p0 ++ "/" ++ p1), ∀ kv ∈ secondItem,
      lastSegment kv.1 ≠ "_parent_id" ∧ lastSegment kv.1 ≠ "_" ++ p0 ++ "_id")
    (row : Row) (hrow : row ∈ create_repeat_dataframe st subs g) :
    ∃ sub ∈ subs, ∃ i : Nat, ∃ firstItem : Submission,
      (getItemList sub p0)[i]? = some firstItem ∧
      alistGet? row "_parent_id" = some (some (getSubmissionId sub)) ∧
      alistGet? row ("_" ++ p0 ++ "_id") =
        some (some (.prim (.s (jvalStr (getSubmissionId sub) ++ "_" ++
          toString (i + 1))))) := by
  unfold create_repeat_dataframe at hrow
  rw [List.mem_flatMap] at hrow
  obtain ⟨sub, hsub, hrow⟩ := hrow
  refine ⟨sub, hsub, ?_⟩
  unfold extract_repeat_data at hrow
  rw [if_neg hlevpos, hsplit] at hrow
  unfold extract_nested_repeat_data at hrow
  rw [List.mem_flatMap] at hrow
  obtain ⟨ip, hip, hrow⟩ := hrow
  simp only [List.isEmpty_nil, if_true] at hrow
  rw [List.mem_map] at hrow
  obtain ⟨secondItem, hsecond, hrow⟩ := hrow
  obtain ⟨i, firstItem⟩ := ip
  have hget : (getItemList sub p0)[i]? = some firstItem :=
    List.mem_enum_iff_getElem?.mp hip
  have hfirstMem : firstItem ∈ getItemList sub p0 :=
    List.getElem?_mem hget
  refine ⟨i, firstItem, hget, ?_, ?_⟩
  · rw [← hrow]
    unfold mkNestedRow
    rw [fill_row_data_get_ne _ _ _
      (fun kv hkv => (hdata sub hsub firstItem hfirstMem secondItem hsecond kv hkv).1)]
    show alistGet? (initialize_row_for_group _ (groupQuestions st g)) "_parent_id" = _
    unfold initialize_row_for_group
    rw [foldl_insert_get_ne (fun nq => nq.2.original_name) (fun _ => none) _
      (groupQuestions st g) _ (fun nq hnq => (hq nq hnq).1)]
    rw [alistGet?_insert, if_neg (Ne.symm hid), alistGet?_insert, if_pos rfl]
  · rw [← hrow]
    unfold mkNestedRow
    rw [fill_row_data_get_ne _ _ _
      (fun kv hkv => (hdata sub hsub firstItem hfirstMem secondItem hsecond kv hkv).2)]
    show alistGet? (initialize_row_for_group _ (groupQuestions st g)) ("_" ++ p0 ++ "_id") = _
    unfold initialize_row_for_group
    rw [foldl_insert_get_ne (fun nq => nq.2.original_name) (fun _ => none) _
      (groupQuestions st g) _ (fun nq hnq => (hq nq hnq).2)]
    rw [alistGet?_insert, if_pos rfl]

/-- C2 witness: on submission id `"S1"` with the only populated ancestor at
0-based index 2, the produced row indeed carries `_parent_id = "S1"` and
`_g1_id = "S1_3"`, as the claim's concrete instance demands. -/
theorem C2_witness :
    (∃ sub ∈ [subW2], ∃ i : Nat, ∃ firstItem : Submission,
      (getItemList sub "g1")[i]? = some firstItem ∧
      alistGet? rowW2 "_parent_id" = some (some (getSubmissionId sub)) ∧
      alistGet? rowW2 ("_" ++ "g1" ++ "_id") =
        some (some (.prim (.s (jvalStr (getSubmissionId sub) ++ "_" ++
          toString (i + 1)))))) ∧
    alistGet? rowW2 "_parent_id" = some (some (.prim (.s "S1"))) ∧
    alistGet? rowW2 "_g1_id" = some (some (.prim (.s "S1_3"))) :=
  ⟨C2_theorem stW2 gW2 [subW2] "g1" "g2" (by decide) (by decide) (by decide)
    (by decide)
    (by decide)
    rowW2 (by decide),
   by decide, by decide⟩

/-- C7 (amended): schema parsing never fails: for every input and every
starting counter it totally returns a `SurveyStructure`, in which colliding
fully-qualified names have silently collapsed — the question and
repeat-group dicts always have duplicate-free key lists; the package
defines no `SchemaError`. -/
theorem C7_amended (x : XLSForm) (c : Nat) :
    (alistKeys (parseFrom x c).1.questions).Nodup ∧
    (alistKeys (parseFrom x c).1.repeat_groups).Nodup ∧
    "SchemaError" ∉ koboExceptionNames := by
  refine ⟨?_, ?_, by decide⟩
  · exact (parseGroups_nodup x.groups "" _ [] _
      (parseQuestions_nodup x.questions "" [] c List.nodup_nil) List.nodup_nil).1
  · exact (parseGroups_nodup x.groups "" _ [] _
      (parseQuestions_nodup x.questions "" [] c List.nodup_nil) List.nodup_nil).2

/-- Tables appended by the repeat-group loop of `process_submissions` are
never empty, given the accumulator's are not. -/
theorem fold_tables_not_empty (st : SurveyStructure) (subs : List Submission) :
    ∀ (l : List (String × RepeatGroup)) (acc : List (List Row)),
    (∀ t ∈ acc, dfEmpty t = false) →
    ∀ t ∈ l.foldl
      (fun acc g =>
        let tg := create_repeat_dataframe st subs g.2
        if dfEmpty tg then acc else acc ++ [tg]) acc,
    dfEmpty t = false := by
  intro l
  induction l with
  | nil => intro acc hacc; exact hacc
  | cons g gs ih =>
    intro acc hacc
    simp only [List.foldl_cons]
    apply ih
    intro t ht
    by_cases h : dfEmpty (create_repeat_dataframe st subs g.2)
    · simp only [h, if_true] at ht
      exact hacc t ht
    · simp only [h, Bool.false_eq_true, if_false] at ht
      rcases List.mem_append.mp ht with h1 | h2
      · exact hacc t h1
      · rw [List.mem_singleton.mp h2]
        exact Bool.not_eq_true _ ▸ h

/-- Every table `process_submissions` returns is non-empty. -/
theorem process_submissions_mem_not_empty (st : SurveyStructure)
    (subs : List Submission) : ∀ t ∈ process_submissions st subs,
    dfEmpty t = false := by
  unfold process_submissions
  by_cases hs : subs.isEmpty
  · rw [if_pos hs]
    intro t ht
    cases ht
  · rw [if_neg hs]
    apply fold_tables_not_empty
    intro t ht
    by_cases h : dfEmpty (create_main_dataframe st subs)
    · simp only [h, if_true] at ht
      cases ht
    · simp only [h, Bool.false_eq_true, if_false, List.mem_singleton] at ht
      rw [ht]
      exact Bool.not_eq_true _ ▸ h

/-- C9: `process_submissions` returns `[]` on the empty submission list,
and every table it does return has at least one row (zero-row tables are
omitted); consequently the length of the output depends on the data: the
same one-group schema yields 1 table when the group's key is absent from
the batch and 2 tables when it is populated. -/
theorem C9_theorem :
    (∀ st : SurveyStructure, process_submissions st [] = []) ∧
    (∀ (st : SurveyStructure) (subs : List Submission) (t : List Row),
      t ∈ process_submissions st subs → dfEmpty t = false ∧ t ≠ []) ∧
    (process_submissions stC9 [subC9a]).length = 1 ∧
    (process_submissions stC9 [subC9b]).length = 2 := by
  refine ⟨fun st => rfl, ?_, by decide, by decide⟩
  intro st subs t ht
  have h := process_submissions_mem_not_empty st subs t ht
  refine ⟨h, ?_⟩
  intro hnil
  rw [hnil] at h
  simp [dfEmpty] at h

/-- C9 witness: the empty batch gives no tables, and the concrete main
table produced from `subC9b` is one of the returned, non-empty tables. -/
theorem C9_witness :
    process_submissions stC9 ([] : List Submission) = [] ∧
    (dfEmpty tC9 = false ∧ tC9 ≠ []) :=
  ⟨C9_theorem.1 stC9, C9_theorem.2.1 stC9 [subC9b] tC9 (by decide)⟩

/-- C6: counterexample.  With equal levels and declared sequences 100 (for
`ga`, registered first) and 5 (for `gb`, registered second), the table at
index 1 of the output is `ga`'s and the table at index 2 is `gb`'s: the tie
between equal-level groups is broken by registration order, not by the
declared `sequence`, which demands `gb`'s table first. -/
theorem C6_counterexample :
    alistGet? stC6.repeat_groups "ga" = some gaC6 ∧ gaC6.sequence = 100 ∧
    alistGet? stC6.repeat_groups "gb" = some gbC6 ∧ gbC6.sequence = 5 ∧
    gaC6.level = gbC6.level ∧
    process_submissions stC6 [subC6] =
      [[[("_id", some (.prim (.s "S"))), ("__version__", none),
         ("_xform_id_string", none), ("_uuid", none), ("_attachments", none),
         ("_status", none), ("_geolocation", none), ("_submission_time", none),
         ("_tags", none), ("_notes", none), ("_validation_status", none),
         ("_submitted_by", none)]],
       [[("_parent_id", some (.prim (.s "S"))), ("qa", some (.prim (.i 1)))]],
       [[("_parent_id", some (.prim (.s "S"))), ("qb", some (.prim (.i 2)))]]] := by
  refine ⟨by decide, by decide, by decide, by decide, by decide, by decide⟩

/-- The repeat-group loop of `process_submissions` as append-filter. -/
theorem fold_tables_eq_filter (st : SurveyStructure) (subs : List Submission) :
    ∀ (l : List (String × RepeatGroup)) (acc : List (List Row)),
    l.foldl
      (fun acc g =>
        let tg := create_repeat_dataframe st subs g.2
        if dfEmpty tg then acc else acc ++ [tg]) acc =
    acc ++ (l.map (fun g => create_repeat_dataframe st subs g.2)).filter
      (fun t => !dfEmpty t) := by
  intro l
  induction l with
  | nil => intro acc; simp
  | cons g gs ih =>
    intro acc
    simp only [List.foldl_cons, List.map_cons, List.filter_cons]
    by_cases h : dfEmpty (create_repeat_dataframe st subs g.2)
    · simp only [h, if_true, Bool.not_true, Bool.false_eq_true, if_false]
      exact ih acc
    · simp only [h, Bool.false_eq_true, if_false, Bool.not_false, if_true]
      rw [ih]
      simp

/-- A non-empty batch always produces a non-empty main table. -/
theorem main_dataframe_not_empty (st : SurveyStructure) (subs : List Submission)
    (hne : subs ≠ []) : dfEmpty (create_main_dataframe st subs) = false := by
  unfold create_main_dataframe dfEmpty
  cases subs with
  | nil => exact absurd rfl hne
  | cons s t =>
    simp only [List.map_cons, List.isEmpty_cons, Bool.false_or, List.all_cons,
      Bool.and_eq_false_iff]
    left
    rw [List.isEmpty_eq_false]
    exact fill_row_data_ne_nil s (initialize_row (st.get_questions_by_path ""))
      (initialize_row_ne_nil _)

/-- C6 (amended): for a non-empty batch, the output is the main table
first, then the non-empty repeat-group tables in the order of the stable
sort of the groups by ascending level — equal-level groups keeping their
registration order (any registration-ordered selection of equal-level — or
more generally level-monotone — groups stays in that order), not being
reordered by their declared `sequence`. -/
theorem C6_amended (st : SurveyStructure) (subs : List Submission)
    (hne : subs ≠ []) :
    process_submissions st subs =
      create_main_dataframe st subs ::
        ((get_sorted_repeat_groups st).map
          (fun g => create_repeat_dataframe st subs g.2)).filter
          (fun t => !dfEmpty t) ∧
    (get_sorted_repeat_groups st).Pairwise (fun a b => a.2.level ≤ b.2.level) ∧
    (∀ c : List (String × RepeatGroup), List.Sublist c st.repeat_groups →
      c.Pairwise (fun a b => a.2.level ≤ b.2.level) →
      List.Sublist c (get_sorted_repeat_groups st)) := by
  refine ⟨?_, ?_, ?_⟩
  · unfold process_submissions
    rw [if_neg (by simpa [List.isEmpty_iff] using hne)]
    rw [fold_tables_eq_filter]
    rw [if_neg (by rw [main_dataframe_not_empty st subs hne]; simp)]
    rfl
  · haveI : IsTotal (String × RepeatGroup) (fun a b => a.2.level ≤ b.2.level) :=
      ⟨fun a b => Nat.le_total a.2.level b.2.level⟩
    haveI : IsTrans (String × RepeatGroup) (fun a b => a.2.level ≤ b.2.level) :=
      ⟨fun _ _ _ hab hbc => Nat.le_trans hab hbc⟩
    exact List.sorted_insertionSort _ _
  · intro c hc hp
    exact List.sublist_insertionSort hp hc

/-- C6 amended witness: on the counterexample batch the equation holds
concretely, and the registration-ordered pair `ga, gb` (a sublist of the
registration dict with equal levels) is still in that order after the
sort. -/
theorem C6_amended_witness :
    (process_submissions stC6 [subC6] =
      create_main_dataframe stC6 [subC6] ::
        ((get_sorted_repeat_groups stC6).map
          (fun g => create_repeat_dataframe stC6 [subC6] g.2)).filter
          (fun t => !dfEmpty t) ∧
    (get_sorted_repeat_groups stC6).Pairwise (fun a b => a.2.level ≤ b.2.level) ∧
    (∀ c : List (String × RepeatGroup), List.Sublist c stC6.repeat_groups →
      c.Pairwise (fun a b => a.2.level ≤ b.2.level) →
      List.Sublist c (get_sorted_repeat_groups stC6))) ∧
    List.Sublist [("ga", gaC6), ("gb", gbC6)] (get_sorted_repeat_groups stC6) :=
  ⟨C6_amended stC6 [subC6] (by decide),
   (C6_amended stC6 [subC6] (by decide)).2.2 [("ga", gaC6), ("gb", gbC6)]
     (by decide) (by decide)⟩

theorem mkLevel0Row_keys (q : List (String × Question)) (subId : JVal)
    (item : Submission) :
    alistKeys (mkLevel0Row q subId item) =
      alistKeys (initialize_row_for_group (alistInsert [] "_parent_id" none) q) := by
  unfold mkLevel0Row
  rw [fill_row_data_keys, initialize_row_for_group_keys, initialize_row_for_group_keys]
  rfl

theorem mkNestedRow_keys (q : List (String × Question)) (subId : JVal)
    (p0 : String) (i : Nat) (item : Submission) :
    alistKeys (mkNestedRow q subId p0 i item) =
      alistKeys (initialize_row_for_group
        (alistInsert (alistInsert [] "_parent_id" none) ("_" ++ p0 ++ "_id") none)
        q) := by
  unfold mkNestedRow
  rw [fill_row_data_keys, initialize_row_for_group_keys, initialize_row_for_group_keys]
  rw [alistKeys_insert, alistKeys_insert, alistKeys_insert, alistKeys_insert]

/-- C5 (amended): in `DataProcessor` the claim holds: every row of the main
table has exactly the schema-fixed main columns, and every row of a repeat
group's table exactly the group's schema-fixed columns — absent data is a
null sentinel, an undeclared raw field never adds a column and an
unanswered question never removes one.  (The parallel
`create_dataframes_from_submissions` pipeline in builder.py violates this:
see the counterexample.) -/
theorem C5_amended (st : SurveyStructure) (subs : List Submission) :
    (∀ row ∈ create_main_dataframe st subs,
      alistKeys row = fixed_main_columns st) ∧
    (∀ (g : RepeatGroup), ∀ row ∈ create_repeat_dataframe st subs g,
      alistKeys row = fixed_repeat_columns st g) := by
  constructor
  · intro row hrow
    unfold create_main_dataframe at hrow
    rw [List.mem_map] at hrow
    obtain ⟨sub, _, hrow⟩ := hrow
    rw [← hrow, fill_row_data_keys]
    rfl
  · intro g row hrow
    unfold create_repeat_dataframe at hrow
    rw [List.mem_flatMap] at hrow
    obtain ⟨sub, _, hrow⟩ := hrow
    unfold extract_repeat_data at hrow
    by_cases hlev : g.level = 0
    · rw [if_pos hlev] at hrow
      rw [List.mem_map] at hrow
      obtain ⟨item, _, hrow⟩ := hrow
      rw [← hrow, mkLevel0Row_keys]
      unfold fixed_repeat_columns
      rw [if_pos hlev]
    · rw [if_neg hlev] at hrow
      unfold fixed_repeat_columns
      rw [if_neg hlev]
      unfold extract_nested_repeat_data at hrow
      match hps : pySplit g.name '/' with
      | [] =>
        rw [hps] at hrow
        cases hrow
      | [p] =>
        rw [hps] at hrow
        cases hrow
      | p0 :: p1 :: rest =>
        rw [hps] at hrow
        rw [List.mem_flatMap] at hrow
        obtain ⟨ip, _, hrow⟩ := hrow
        cases rest with
        | cons r0 rrest =>
          simp only [List.isEmpty_cons, Bool.false_eq_true, if_false] at hrow
          cases hrow
        | nil =>
          simp only [List.isEmpty_nil, if_true] at hrow
          rw [List.mem_map] at hrow
          obtain ⟨item, _, hrow⟩ := hrow
          rw [← hrow, mkNestedRow_keys]

/-- C5: counterexample.  In builder.py's
`create_dataframes_from_submissions`, the raw field `foo` — declared
nowhere in the schema — adds a `foo` column to the main row, although the
schema-fixed column set (metadata plus declared main columns) does not
contain it: rows do not carry exactly the schema-fixed columns. -/
theorem C5_counterexample :
    mkBuilder xC5 = builderC5 ∧
    "foo" ∈ alistKeys (builderMainRow allColumnsC5 subC5) ∧
    "foo" ∉ builderMetadataColumns ++ alistGetD allColumnsC5 "main" [] := by
  refine ⟨?_, by decide, by decide⟩
  simp only [mkBuilder, bProcessQuestions, bProcessGroups, xC5]
  decide

/-- C5 amended witness: concrete key sets for the main table and the
`ga` table produced from the C6 batch. -/
theorem C5_amended_witness :
    ([("_id", some (JVal.prim (.s "S"))), ("__version__", none),
      ("_xform_id_string", none), ("_uuid", none), ("_attachments", none),
      ("_status", none), ("_geolocation", none), ("_submission_time", none),
      ("_tags", none), ("_notes", none), ("_validation_status", none),
      ("_submitted_by", none)] : Row) ∈ create_main_dataframe stC6 [subC6] ∧
    alistKeys ([("_id", some (JVal.prim (.s "S"))), ("__version__", none),
      ("_xform_id_string", none), ("_uuid", none), ("_attachments", none),
      ("_status", none), ("_geolocation", none), ("_submission_time", none),
      ("_tags", none), ("_notes", none), ("_validation_status", none),
      ("_submitted_by", none)] : Row) = fixed_main_columns stC6 ∧
    alistKeys ([("_parent_id", some (JVal.prim (.s "S"))),
      ("qa", some (JVal.prim (.i 1)))] : Row) = fixed_repeat_columns stC6 gaC6 :=
  ⟨by decide,
   (C5_amended stC6 [subC6]).1 _ (by decide),
   (C5_amended stC6 [subC6]).2 gaC6 _ (by decide)⟩

/-! ## Claim theorems: question assignment (C4) and the remaining claims -/
theorem mem_keyAdd_self (ks : List String) (k : String) : k ∈ keyAdd ks k := by
  unfold keyAdd
  split_ifs with h
  · simpa using h
  · simp

theorem mem_keyAdd_of_mem (ks : List String) (k k' : String) (h : k ∈ ks) :
    k ∈ keyAdd ks k' := by
  unfold keyAdd
  split_ifs
  · exact h
  · exact List.mem_append_left _ h

theorem mem_foldl_keyAdd {β : Type} (f : β → String) (k : String) :
    ∀ (l : List β) (ks : List String),
    (k ∈ ks ∨ ∃ b ∈ l, f b = k) →
    k ∈ l.foldl (fun ks b => keyAdd ks (f b)) ks := by
  intro l
  induction l with
  | nil =>
    intro ks h
    rcases h with h | ⟨b, hb, _⟩
    · exact h
    · cases hb
  | cons b t ih =>
    intro ks h
    simp only [List.foldl_cons]
    apply ih
    rcases h with h | ⟨b', hb', hf⟩
    · exact Or.inl (mem_keyAdd_of_mem ks k (f b) h)
    · rcases List.mem_cons.mp hb' with h1 | h2
      · subst h1
        exact Or.inl (hf ▸ mem_keyAdd_self ks (f b'))
      · exact Or.inr ⟨b', h2, hf⟩

/-- C4 (amended): in `DataProcessor` a question belongs to the question set
of every repeat group whose fully-qualified name equals its path or is a
slash-prefix of it — all matching groups, not only the deepest — so its
column also appears in the tables of strict ancestor groups; and the root
table's question set contains exactly the questions with empty path, so a
question under a non-repeat group (which matches no repeat group and has a
non-empty path) is part of no table's declared column set. -/
theorem C4_amended (st : SurveyStructure) (g : RepeatGroup)
    (nq : String × Question) (hq : nq ∈ st.questions) :
    (nq ∈ groupQuestions st g ↔
      (nq.2.path = g.name ∨ strIsPrefixOf (g.name ++ "/") nq.2.path = true)) ∧
    (nq ∈ st.get_questions_by_path "" ↔ nq.2.path = "") ∧
    (g.level = 0 → nq ∈ groupQuestions st g →
      nq.2.original_name ∈ fixed_repeat_columns st g) := by
  refine ⟨?_, ?_, ?_⟩
  · unfold groupQuestions
    rw [List.mem_filter]
    simp [hq]
  · unfold SurveyStructure.get_questions_by_path
    rw [List.mem_filter]
    simp [hq]
  · intro hlev hmem
    unfold fixed_repeat_columns
    rw [if_pos hlev, initialize_row_for_group_keys]
    exact mem_foldl_keyAdd (fun nq => nq.2.original_name) nq.2.original_name
      (groupQuestions st g) _ (Or.inr ⟨nq, hmem, rfl⟩)

/-- C4: counterexample.  The deepest repeat group matching `qC4` is
`a/b/c` (exact path match), yet `qC4` is also included in the question set
of the strict ancestor `a`, and `a`'s table rows carry the column `q`: a
question is not assigned to exactly one table. -/
theorem C4_counterexample :
    ("a/b/c/q", qC4) ∈ stC1.questions ∧
    alistGet? stC1.repeat_groups "a/b/c" = some gC1 ∧
    qC4.path = gC1.name ∧
    alistGet? stC1.repeat_groups "a" = some gC4a ∧
    gC4a.name ≠ gC1.name ∧
    ("a/b/c/q", qC4) ∈ groupQuestions stC1 gC4a ∧
    create_repeat_dataframe stC1 [subC1] gC4a =
      [[("_parent_id", some (.prim (.s "S"))), ("q", none)]] := by
  refine ⟨by decide, by decide, by decide, by decide, by decide, by decide, by decide⟩

/-- C4 amended witness: the deep question `qC4` is in the question set of
the level-0 ancestor `a` (matching by slash-prefix), its column `q` is
among `a`'s fixed columns, and it is not part of the root question set. -/
theorem C4_amended_witness :
    (("a/b/c/q", qC4) ∈ groupQuestions stC1 gC4a ↔
      (qC4.path = gC4a.name ∨ strIsPrefixOf (gC4a.name ++ "/") qC4.path = true)) ∧
    (("a/b/c/q", qC4) ∈ stC1.get_questions_by_path "" ↔ qC4.path = "") ∧
    "q" ∈ fixed_repeat_columns stC1 gC4a :=
  ⟨(C4_amended stC1 gC4a ("a/b/c/q", qC4) (by decide)).1,
   (C4_amended stC1 gC4a ("a/b/c/q", qC4) (by decide)).2.1,
   (C4_amended stC1 gC4a ("a/b/c/q", qC4) (by decide)).2.2 (by decide) (by decide)⟩

/-! ## Claim C8: lenient-only error handling -/
/-- C8: counterexample.  The package defines no `ValidationError` at all —
its exception classes are exactly the four listed — and the row filler
unconditionally drops a raw field with no declared column and returns
normally: there is no strict mode to configure, so the engine does not
support both modes as a configuration choice. -/
theorem C8_counterexample :
    "ValidationError" ∉ koboExceptionNames ∧
    koboExceptionNames =
      ["KoboAPIError", "AuthenticationError", "ResourceNotFoundError",
       "DownloadError"] ∧
    fill_row_data [("age", none)] [("foo", JVal.prim (.i 1))] = [("age", none)] := by
  refine ⟨by decide, by decide, by decide⟩

/-- C8 (amended): the engine has exactly one, non-configurable, lenient
behavior: `_fill_row_data` drops every raw field with no matching declared
column — the row's column set never changes and an undeclared column stays
absent — and it totally returns for every row and every (possibly
malformed) submission; no strict mode and no `ValidationError` exist
(`koboExceptionNames` lists the whole hierarchy). -/
theorem C8_amended (row : Row) (data : Submission) :
    alistKeys (fill_row_data row data) = alistKeys row ∧
    (∀ k : String, alistMem row k = false →
      alistGet? (fill_row_data row data) k = none) ∧
    "ValidationError" ∉ koboExceptionNames := by
  refine ⟨fill_row_data_keys data row, ?_, by decide⟩
  intro k h
  have hmem : alistMem (fill_row_data row data) k = alistMem row k := by
    rw [alistMem_eq_contains, alistMem_eq_contains, fill_row_data_keys]
  rw [h] at hmem
  unfold alistMem at hmem
  exact Option.not_isSome_iff_eq_none.mp (by simp [hmem])

/-- C8 amended witness: filling a one-column row with an undeclared field
keeps the column set and leaves the undeclared key absent. -/
theorem C8_witness :
    alistKeys (fill_row_data [("age", none)] [("foo", JVal.prim (.i 1))]) =
      alistKeys [(("age" : String), (none : Cell))] ∧
    alistGet? (fill_row_data [("age", none)] [("foo", JVal.prim (.i 1))]) "foo" =
      none :=
  ⟨(C8_amended [("age", none)] [("foo", JVal.prim (.i 1))]).1,
   (C8_amended [("age", none)] [("foo", JVal.prim (.i 1))]).2.1 "foo" (by decide)⟩

theorem emitQ_counter :
    ∀ (qs : List (String × QData)) (pre : String) (c : Nat),
    (emitQ qs pre c).2 = c + qs.length
  | [], _, c => by simp [emitQ]
  | (n, qd) :: rest, pre, c => by
    simp only [emitQ]
    rw [emitQ_counter rest pre (c + 1)]
    simp only [List.length_cons]
    omega

theorem emitG_counter :
    ∀ (gs : List (String × GNode)) (pre : String) (c : Nat),
    (emitG gs pre c).2.2 = c + countQG gs
  | [], _, c => by simp [emitG, countQG]
  | (n, .node glabel gseq grep gqs ggs) :: rest, pre, c => by
    rw [emitG]
    simp only [countQG]
    by_cases hrep : grep.getD false
    · simp only [hrep, if_true]
      rw [emitG_counter rest, emitG_counter ggs, emitQ_counter]
      omega
    · simp only [hrep, Bool.false_eq_true, if_false]
      rw [emitG_counter rest, emitG_counter ggs, emitQ_counter]
      omega

theorem emitQ_keys_indep :
    ∀ (qs : List (String × QData)) (pre : String) (c c' : Nat),
    (emitQ qs pre c).1.map Prod.fst = (emitQ qs pre c').1.map Prod.fst
  | [], _, _, _ => rfl
  | (n, qd) :: rest, pre, c, c' => by
    simp only [emitQ, List.map_cons]
    rw [emitQ_keys_indep rest pre (c + 1) (c' + 1)]

theorem emitG_keys_indep :
    ∀ (gs : List (String × GNode)) (pre : String) (c c' : Nat),
    (emitG gs pre c).1.map Prod.fst = (emitG gs pre c').1.map Prod.fst ∧
    (emitG gs pre c).2.1.map Prod.fst = (emitG gs pre c').2.1.map Prod.fst
  | [], _, _, _ => by simp [emitG]
  | (n, .node glabel gseq grep gqs ggs) :: rest, pre, c, c' => by
    rw [emitG, emitG]
    by_cases hrep : grep.getD false
    · simp only [hrep, if_true, List.map_append, List.map_cons, List.map_nil]
      constructor
      · rw [emitQ_keys_indep gqs _ (c + 1) (c' + 1),
          (emitG_keys_indep ggs _ _ _).1, (emitG_keys_indep rest _ _ _).1]
      · rw [(emitG_keys_indep ggs _ _ _).2, (emitG_keys_indep rest _ _ _).2]
    · simp only [hrep, Bool.false_eq_true, if_false, List.map_append,
        List.nil_append]
      constructor
      · rw [emitQ_keys_indep gqs _ c c',
          (emitG_keys_indep ggs _ _ _).1, (emitG_keys_indep rest _ _ _).1]
      · rw [(emitG_keys_indep ggs _ _ _).2, (emitG_keys_indep rest _ _ _).2]

theorem emitQ_length (qs : List (String × QData)) (pre : String) (c c' : Nat) :
    (emitQ qs pre c).1.length = (emitQ qs pre c').1.length := by
  rw [← List.length_map _ Prod.fst, ← List.length_map _ Prod.fst,
    emitQ_keys_indep qs pre c c']

theorem emitG_lengthQ (gs : List (String × GNode)) (pre : String) (c c' : Nat) :
    (emitG gs pre c).1.length = (emitG gs pre c').1.length := by
  rw [← List.length_map _ Prod.fst, ← List.length_map _ Prod.fst,
    (emitG_keys_indep gs pre c c').1]

theorem emitG_lengthG (gs : List (String × GNode)) (pre : String) (c c' : Nat) :
    (emitG gs pre c).2.1.length = (emitG gs pre c').2.1.length := by
  rw [← List.length_map _ Prod.fst, ← List.length_map _ Prod.fst,
    (emitG_keys_indep gs pre c c').2]

theorem alistInsert_eq_append {α : Type} (l : List (String × α)) (k : String)
    (v : α) (h : k ∉ alistKeys l) : alistInsert l k v = l ++ [(k, v)] := by
  induction l with
  | nil => rfl
  | cons hd t ih =>
    obtain ⟨hk, hv⟩ := hd
    have h' : k ∉ hk :: alistKeys t := h
    have hne : hk ≠ k := fun e => h' (by rw [e]; exact List.mem_cons_self _ _)
    have ht : k ∉ alistKeys t := fun hm => h' (List.mem_cons_of_mem _ hm)
    simp only [alistInsert, if_neg hne, List.cons_append]
    rw [ih ht]

theorem nodup_append_left_part {α : Type} {a b c : List α}
    (h : (a ++ (b ++ c)).Nodup) : (a ++ b).Nodup :=
  List.Nodup.sublist (List.Sublist.append_left (List.sublist_append_left b c) a) h

theorem not_mem_left_of_nodup_append {α : Type} {a b : List α} {x : α}
    (h : (a ++ b).Nodup) (hx : x ∈ b) : x ∉ a :=
  fun hm => (List.nodup_append.mp h).2.2 hm hx

/-- With collision-free names, the parser's question loop appends exactly
its emission. -/
theorem parseQuestions_eq_emit :
    ∀ (qs : List (String × QData)) (pre : String)
      (acc : List (String × Question)) (c : Nat),
    (alistKeys acc ++ (emitQ qs pre c).1.map Prod.fst).Nodup →
    parseQuestions qs pre acc c = (acc ++ (emitQ qs pre c).1, (emitQ qs pre c).2)
  | [], _, acc, c, _ => by simp [parseQuestions, emitQ]
  | (n, qd) :: rest, pre, acc, c, h => by
    rw [parseQuestions]
    simp only [emitQ, List.map_cons] at h ⊢
    have hfull : (if pre = "" then n else pre ++ n) ∉ alistKeys acc :=
      not_mem_left_of_nodup_append h (List.mem_cons_self _ _)
    rw [alistInsert_eq_append _ _ _ hfull]
    have hnd : (alistKeys (acc ++ [((if pre = "" then n else pre ++ n),
        ({ name := (if pre = "" then n else pre ++ n), type := qd.qtype.getD "",
           label := qd.label.getD n, sequence := qd.seq.getD c,
           required := qd.required.getD false, list_name := qd.list_name,
           path := rstripSlash pre } : Question))]) ++
        (emitQ rest pre (c + 1)).1.map Prod.fst).Nodup := by
      unfold alistKeys
      rw [List.map_append]
      simp only [List.map_cons, List.map_nil]
      rw [List.append_assoc]
      exact h
    rw [parseQuestions_eq_emit rest pre _ (c + 1) hnd]
    rw [List.append_assoc]
    rfl

/-- With collision-free names, the parser's group loop appends exactly its
emission. -/
theorem parseGroups_eq_emit :
    ∀ (gs : List (String × GNode)) (pre : String)
      (accQ : List (String × Question)) (accG : List (String × RepeatGroup))
      (c : Nat),
    (alistKeys accQ ++ (emitG gs pre c).1.map Prod.fst).Nodup →
    (alistKeys accG ++ (emitG gs pre c).2.1.map Prod.fst).Nodup →
    parseGroups gs pre accQ accG c =
      (accQ ++ (emitG gs pre c).1, accG ++ (emitG gs pre c).2.1,
        (emitG gs pre c).2.2)
  | [], _, accQ, accG, c, _, _ => by simp [parseGroups, emitG]
  | (n, .node glabel gseq grep gqs ggs) :: rest, pre, accQ, accG, c, hq, hg => by
    rw [parseGroups]
    simp only [emitG, List.map_append, List.map_cons] at hq hg ⊢
    by_cases hrep : grep.getD false
    · simp only [hrep, if_true, List.map_cons, List.map_nil,
        List.singleton_append] at hq hg ⊢
      have hqn : (alistKeys accQ ++
          ((emitQ gqs ((if pre = "" then n else pre ++ n) ++ "/") (c + 1)).1.map
            Prod.fst)).Nodup := by
        apply nodup_append_left_part (c := (emitG ggs _ _).1.map Prod.fst ++
          (emitG rest pre _).1.map Prod.fst)
        simpa [List.append_assoc] using hq
      rw [parseQuestions_eq_emit gqs _ accQ (c + 1) hqn]
      have hfull : (if pre = "" then n else pre ++ n) ∉ alistKeys accG :=
        not_mem_left_of_nodup_append hg (List.mem_cons_self _ _)
      rw [alistInsert_eq_append _ _ _ hfull]
      have hq2 : (alistKeys (accQ ++
          (emitQ gqs ((if pre = "" then n else pre ++ n) ++ "/") (c + 1)).1) ++
          ((emitG ggs ((if pre = "" then n else pre ++ n) ++ "/")
            (emitQ gqs ((if pre = "" then n else pre ++ n) ++ "/") (c + 1)).2).1.map
            Prod.fst)).Nodup := by
        unfold alistKeys
        rw [List.map_append, List.append_assoc]
        apply nodup_append_left_part (c := (emitG rest pre _).1.map Prod.fst)
        simpa [List.append_assoc] using hq
      have hg2 : (alistKeys (accG ++ [((if pre = "" then n else pre ++ n),
          ({ name := (if pre = "" then n else pre ++ n), label := glabel.getD n,
             sequence := gseq.getD c, path := rstripSlash pre,
             level := countSlashes (if pre = "" then n else pre ++ n) } :
            RepeatGroup))]) ++
          ((emitG ggs ((if pre = "" then n else pre ++ n) ++ "/")
            (emitQ gqs ((if pre = "" then n else pre ++ n) ++ "/") (c + 1)).2).2.1.map
            Prod.fst)).Nodup := by
        unfold alistKeys
        rw [List.map_append]
        simp only [List.map_cons, List.map_nil]
        rw [List.append_assoc]
        apply nodup_append_left_part (c := (emitG rest pre _).2.1.map Prod.fst)
        simpa [List.append_assoc] using hg
      rw [parseGroups_eq_emit ggs _ _ _ _ hq2 hg2]
      have hq3 : (alistKeys ((accQ ++
          (emitQ gqs ((if pre = "" then n else pre ++ n) ++ "/") (c + 1)).1) ++
          (emitG ggs ((if pre = "" then n else pre ++ n) ++ "/")
            (emitQ gqs ((if pre = "" then n else pre ++ n) ++ "/") (c + 1)).2).1) ++
          ((emitG rest pre
            (emitG ggs ((if pre = "" then n else pre ++ n) ++ "/")
              (emitQ gqs ((if pre = "" then n else pre ++ n) ++ "/") (c + 1)).2).2.2).1.map
            Prod.fst)).Nodup := by
        unfold alistKeys
        rw [List.map_append, List.map_append]
        simpa [List.append_assoc] using hq
      have hg3 : (alistKeys ((accG ++ [((if pre = "" then n else pre ++ n),
          ({ name := (if pre = "" then n else pre ++ n), label := glabel.getD n,
             sequence := gseq.getD c, path := rstripSlash pre,
             level := countSlashes (if pre = "" then n else pre ++ n) } :
            RepeatGroup))]) ++
          (emitG ggs ((if pre = "" then n else pre ++ n) ++ "/")
            (emitQ gqs ((if pre = "" then n else pre ++ n) ++ "/") (c + 1)).2).2.1) ++
          ((emitG rest pre
            (emitG ggs ((if pre = "" then n else pre ++ n) ++ "/")
              (emitQ gqs ((if pre = "" then n else pre ++ n) ++ "/") (c + 1)).2).2.2).2.1.map
            Prod.fst)).Nodup := by
        unfold alistKeys
        rw [List.map_append, List.map_append]
        simp only [List.map_cons, List.map_nil]
        simpa [List.append_assoc] using hg
      rw [parseGroups_eq_emit rest pre _ _ _ hq3 hg3]
      simp [List.append_assoc]
    · simp only [hrep, Bool.false_eq_true, if_false, List.map_nil,
        List.nil_append] at hq hg ⊢
      have hqn : (alistKeys accQ ++
          ((emitQ gqs ((if pre = "" then n else pre ++ n) ++ "/") c).1.map
            Prod.fst)).Nodup := by
        apply nodup_append_left_part (c := (emitG ggs _ _).1.map Prod.fst ++
          (emitG rest pre _).1.map Prod.fst)
        simpa [List.append_assoc] using hq
      rw [parseQuestions_eq_emit gqs _ accQ c hqn]
      have hq2 : (alistKeys (accQ ++
          (emitQ gqs ((if pre = "" then n else pre ++ n) ++ "/") c).1) ++
          ((emitG ggs ((if pre = "" then n else pre ++ n) ++ "/")
            (emitQ gqs ((if pre = "" then n else pre ++ n) ++ "/") c).2).1.map
            Prod.fst)).Nodup := by
        unfold alistKeys
        rw [List.map_append, List.append_assoc]
        apply nodup_append_left_part (c := (emitG rest pre _).1.map Prod.fst)
        simpa [List.append_assoc] using hq
      have hg2 : (alistKeys accG ++
          ((emitG ggs ((if pre = "" then n else pre ++ n) ++ "/")
            (emitQ gqs ((if pre = "" then n else pre ++ n) ++ "/") c).2).2.1.map
            Prod.fst)).Nodup := by
        apply nodup_append_left_part (c := (emitG rest pre _).2.1.map Prod.fst)
        simpa [List.append_assoc] using hg
      rw [parseGroups_eq_emit ggs _ _ _ _ hq2 hg2]
      have hq3 : (alistKeys ((accQ ++
          (emitQ gqs ((if pre = "" then n else pre ++ n) ++ "/") c).1) ++
          (emitG ggs ((if pre = "" then n else pre ++ n) ++ "/")
            (emitQ gqs ((if pre = "" then n else pre ++ n) ++ "/") c).2).1) ++
          ((emitG rest pre
            (emitG ggs ((if pre = "" then n else pre ++ n) ++ "/")
              (emitQ gqs ((if pre = "" then n else pre ++ n) ++ "/") c).2).2.2).1.map
            Prod.fst)).Nodup := by
        unfold alistKeys
        rw [List.map_append, List.map_append]
        simpa [List.append_assoc] using hq
      have hg3 : (alistKeys (accG ++
          (emitG ggs ((if pre = "" then n else pre ++ n) ++ "/")
            (emitQ gqs ((if pre = "" then n else pre ++ n) ++ "/") c).2).2.1) ++
          ((emitG rest pre
            (emitG ggs ((if pre = "" then n else pre ++ n) ++ "/")
              (emitQ gqs ((if pre = "" then n else pre ++ n) ++ "/") c).2).2.2).2.1.map
            Prod.fst)).Nodup := by
        unfold alistKeys
        rw [List.map_append]
        simpa [List.append_assoc] using hg
      rw [parseGroups_eq_emit rest pre _ _ _ hq3 hg3]
      simp [List.append_assoc]

theorem append_ne_append {α : Type} {a a' b b' : List α} (h : a ≠ a')
    (hl : a.length = a'.length) : a ++ b ≠ a' ++ b' :=
  fun he => h (List.append_inj he hl).1

theorem append_ne_of_right_ne {α : Type} (a : List α) {b b' : List α}
    (h : b ≠ b') : a ++ b ≠ a ++ b' :=
  fun he => h (List.append_cancel_left he)

/-- Without fallback items, the emitted questions do not depend on the
counter. -/
theorem emitQ_eq_of_no_fallback :
    ∀ (qs : List (String × QData)) (pre : String) (c c' : Nat),
    qs.any (fun q => q.2.seq.isNone) = false →
    (emitQ qs pre c).1 = (emitQ qs pre c').1
  | [], _, _, _, _ => rfl
  | (n, qd) :: rest, pre, c, c', h => by
    simp only [List.any_cons, Bool.or_eq_false_iff] at h
    obtain ⟨h1, h2⟩ := h
    cases hqd : qd.seq with
    | none => rw [hqd] at h1; simp at h1
    | some s =>
      simp only [emitQ, hqd, Option.getD_some]
      rw [emitQ_eq_of_no_fallback rest pre (c + 1) (c' + 1) h2]

/-- Without fallback items, the emitted groups and subtree questions do not
depend on the counter. -/
theorem emitG_eq_of_no_fallback :
    ∀ (gs : List (String × GNode)) (pre : String) (c c' : Nat),
    gnodesHaveFallback gs = false →
    (emitG gs pre c).1 = (emitG gs pre c').1 ∧
      (emitG gs pre c).2.1 = (emitG gs pre c').2.1
  | [], _, _, _, _ => by simp [emitG]
  | (n, .node glabel gseq grep gqs ggs) :: rest, pre, c, c', h => by
    rw [gnodesHaveFallback] at h
    simp only [Bool.or_eq_false_iff] at h
    obtain ⟨⟨⟨hOwn, hQ⟩, hGG⟩, hRest⟩ := h
    simp only [emitG]
    by_cases hrep : grep.getD false
    · have hseq : gseq.isNone = false := by
        rw [hrep] at hOwn
        simpa using hOwn
      cases hqd : gseq with
      | none => rw [hqd] at hseq; simp at hseq
      | some s =>
        simp only [hrep, if_true, hqd, Option.getD_some]
        have hq1 := emitQ_eq_of_no_fallback gqs
          ((if pre = "" then n else pre ++ n) ++ "/") (c + 1) (c' + 1) hQ
        have hgg := emitG_eq_of_no_fallback ggs
          ((if pre = "" then n else pre ++ n) ++ "/")
          (emitQ gqs ((if pre = "" then n else pre ++ n) ++ "/") (c + 1)).2
          (emitQ gqs ((if pre = "" then n else pre ++ n) ++ "/") (c' + 1)).2 hGG
        have hre := emitG_eq_of_no_fallback rest pre
          (emitG ggs ((if pre = "" then n else pre ++ n) ++ "/")
            (emitQ gqs ((if pre = "" then n else pre ++ n) ++ "/") (c + 1)).2).2.2
          (emitG ggs ((if pre = "" then n else pre ++ n) ++ "/")
            (emitQ gqs ((if pre = "" then n else pre ++ n) ++ "/") (c' + 1)).2).2.2
          hRest
        exact ⟨by rw [hq1, hgg.1, hre.1], by rw [hgg.2, hre.2]⟩
    · simp only [hrep, Bool.false_eq_true, if_false]
      have hq1 := emitQ_eq_of_no_fallback gqs
        ((if pre = "" then n else pre ++ n) ++ "/") c c' hQ
      have hgg := emitG_eq_of_no_fallback ggs
        ((if pre = "" then n else pre ++ n) ++ "/")
        (emitQ gqs ((if pre = "" then n else pre ++ n) ++ "/") c).2
        (emitQ gqs ((if pre = "" then n else pre ++ n) ++ "/") c').2 hGG
      have hre := emitG_eq_of_no_fallback rest pre
        (emitG ggs ((if pre = "" then n else pre ++ n) ++ "/")
          (emitQ gqs ((if pre = "" then n else pre ++ n) ++ "/") c).2).2.2
        (emitG ggs ((if pre = "" then n else pre ++ n) ++ "/")
          (emitQ gqs ((if pre = "" then n else pre ++ n) ++ "/") c').2).2.2
        hRest
      exact ⟨by rw [hq1, hgg.1, hre.1], by rw [hgg.2, hre.2]⟩

/-- With a fallback question present, different starting counters emit
different question lists. -/
theorem emitQ_ne_of_fallback :
    ∀ (qs : List (String × QData)) (pre : String) (c c' : Nat), c ≠ c' →
    qs.any (fun q => q.2.seq.isNone) = true →
    (emitQ qs pre c).1 ≠ (emitQ qs pre c').1
  | [], _, _, _, _, h => by simp at h
  | (n, qd) :: rest, pre, c, c', hne, h => by
    simp only [emitQ]
    intro heq
    rw [List.cons.injEq] at heq
    obtain ⟨hhead, htail⟩ := heq
    cases hqd : qd.seq with
    | none =>
      have hs := congrArg (fun p => p.2.sequence) hhead
      simp only [hqd, Option.getD_none] at hs
      exact hne hs
    | some s =>
      have h2 : rest.any (fun q => q.2.seq.isNone) = true := by
        simp only [List.any_cons, hqd, Option.isNone_some, Bool.false_or] at h
        exact h
      exact emitQ_ne_of_fallback rest pre (c + 1) (c' + 1)
        (by omega) h2 htail

/-- With a fallback question or repeat group present, different starting
counters emit a different question list or a different group list. -/
theorem emitG_ne_of_fallback :
    ∀ (gs : List (String × GNode)) (pre : String) (c c' : Nat), c ≠ c' →
    gnodesHaveFallback gs = true →
    (emitG gs pre c).1 ≠ (emitG gs pre c').1 ∨
      (emitG gs pre c).2.1 ≠ (emitG gs pre c').2.1
  | [], _, _, _, _, h => by simp [gnodesHaveFallback] at h
  | (n, .node glabel gseq grep gqs ggs) :: rest, pre, c, c', hne, h => by
    rw [gnodesHaveFallback] at h
    by_cases hrep : grep.getD false
    · cases hqd : gseq with
      | none =>
        right
        simp only [emitG, hrep, if_true, hqd, Option.getD_none,
          List.singleton_append, List.cons_append]
        intro heq
        rw [List.cons.injEq] at heq
        exact hne (congrArg (fun p => p.2.sequence) heq.1)
      | some s =>
        have h' : (gqs.any (fun q => q.2.seq.isNone) ||
            (gnodesHaveFallback ggs || gnodesHaveFallback rest)) = true := by
          rw [hrep, hqd] at h
          simpa [Bool.or_assoc] using h
        simp only [emitG, hrep, if_true, hqd, Option.getD_some,
          List.singleton_append, List.cons_append]
        by_cases hQ : gqs.any (fun q => q.2.seq.isNone) = true
        · left
          rw [List.append_assoc, List.append_assoc]
          exact append_ne_append
            (emitQ_ne_of_fallback gqs _ (c + 1) (c' + 1) (by omega) hQ)
            (emitQ_length gqs _ _ _)
        · have hQf : gqs.any (fun q => q.2.seq.isNone) = false :=
            Bool.not_eq_true _ ▸ hQ
          have hq1 := emitQ_eq_of_no_fallback gqs
            ((if pre = "" then n else pre ++ n) ++ "/") (c + 1) (c' + 1) hQf
          have hcg : (emitQ gqs ((if pre = "" then n else pre ++ n) ++ "/")
              (c + 1)).2 ≠
              (emitQ gqs ((if pre = "" then n else pre ++ n) ++ "/")
              (c' + 1)).2 := by
            rw [emitQ_counter, emitQ_counter]
            omega
          by_cases hGG : gnodesHaveFallback ggs = true
          · rcases emitG_ne_of_fallback ggs
              ((if pre = "" then n else pre ++ n) ++ "/") _ _ hcg hGG with hd | hd
            · left
              rw [List.append_assoc, List.append_assoc, hq1]
              apply append_ne_of_right_ne
              exact append_ne_append hd (emitG_lengthQ ggs _ _ _)
            · right
              intro he
              rw [List.cons.injEq] at he
              exact append_ne_append hd (emitG_lengthG ggs _ _ _) he.2
          · have hGGf : gnodesHaveFallback ggs = false :=
              Bool.not_eq_true _ ▸ hGG
            have hRest : gnodesHaveFallback rest = true := by
              rw [hQf, hGGf] at h'
              simpa using h'
            have hgg := emitG_eq_of_no_fallback ggs
              ((if pre = "" then n else pre ++ n) ++ "/")
              (emitQ gqs ((if pre = "" then n else pre ++ n) ++ "/") (c + 1)).2
              (emitQ gqs ((if pre = "" then n else pre ++ n) ++ "/") (c' + 1)).2
              hGGf
            have hcr : (emitG ggs ((if pre = "" then n else pre ++ n) ++ "/")
                (emitQ gqs ((if pre = "" then n else pre ++ n) ++ "/")
                  (c + 1)).2).2.2 ≠
                (emitG ggs ((if pre = "" then n else pre ++ n) ++ "/")
                (emitQ gqs ((if pre = "" then n else pre ++ n) ++ "/")
                  (c' + 1)).2).2.2 := by
              rw [emitG_counter, emitG_counter, emitQ_counter, emitQ_counter]
              omega
            rcases emitG_ne_of_fallback rest pre _ _ hcr hRest with hd | hd
            · left
              rw [List.append_assoc, List.append_assoc, hq1, hgg.1]
              apply append_ne_of_right_ne
              apply append_ne_of_right_ne
              exact hd
            · right
              rw [hgg.2]
              intro he
              rw [List.cons.injEq] at he
              exact append_ne_of_right_ne _ hd he.2
    · have hrepf : grep.getD false = false := Bool.not_eq_true _ ▸ hrep
      have h' : (gqs.any (fun q => q.2.seq.isNone) ||
          (gnodesHaveFallback ggs || gnodesHaveFallback rest)) = true := by
        rw [hrepf] at h
        simpa [Bool.or_assoc] using h
      simp only [emitG, hrepf, Bool.false_eq_true, if_false, List.nil_append]
      by_cases hQ : gqs.any (fun q => q.2.seq.isNone) = true
      · left
        rw [List.append_assoc, List.append_assoc]
        exact append_ne_append
          (emitQ_ne_of_fallback gqs _ c c' hne hQ)
          (emitQ_length gqs _ _ _)
      · have hQf : gqs.any (fun q => q.2.seq.isNone) = false :=
          Bool.not_eq_true _ ▸ hQ
        have hq1 := emitQ_eq_of_no_fallback gqs
          ((if pre = "" then n else pre ++ n) ++ "/") c c' hQf
        have hcg : (emitQ gqs ((if pre = "" then n else pre ++ n) ++ "/")
            c).2 ≠
            (emitQ gqs ((if pre = "" then n else pre ++ n) ++ "/") c').2 := by
          rw [emitQ_counter, emitQ_counter]
          omega
        by_cases hGG : gnodesHaveFallback ggs = true
        · rcases emitG_ne_of_fallback ggs
            ((if pre = "" then n else pre ++ n) ++ "/") _ _ hcg hGG with hd | hd
          · left
            rw [List.append_assoc, List.append_assoc, hq1]
            apply append_ne_of_right_ne
            exact append_ne_append hd (emitG_lengthQ ggs _ _ _)
          · right
            exact append_ne_append hd (emitG_lengthG ggs _ _ _)
        · have hGGf : gnodesHaveFallback ggs = false :=
            Bool.not_eq_true _ ▸ hGG
          have hRest : gnodesHaveFallback rest = true := by
            rw [hQf, hGGf] at h'
            simpa using h'
          have hgg := emitG_eq_of_no_fallback ggs
            ((if pre = "" then n else pre ++ n) ++ "/")
            (emitQ gqs ((if pre = "" then n else pre ++ n) ++ "/") c).2
            (emitQ gqs ((if pre = "" then n else pre ++ n) ++ "/") c').2
            hGGf
          have hcr : (emitG ggs ((if pre = "" then n else pre ++ n) ++ "/")
              (emitQ gqs ((if pre = "" then n else pre ++ n) ++ "/") c).2).2.2 ≠
              (emitG ggs ((if pre = "" then n else pre ++ n) ++ "/")
              (emitQ gqs ((if pre = "" then n else pre ++ n) ++ "/") c').2).2.2 := by
            rw [emitG_counter, emitG_counter, emitQ_counter, emitQ_counter]
            omega
          rcases emitG_ne_of_fallback rest pre _ _ hcr hRest with hd | hd
          · left
            rw [List.append_assoc, List.append_assoc, hq1, hgg.1]
            apply append_ne_of_right_ne
            apply append_ne_of_right_ne
            exact hd
          · right
            rw [hgg.2]
            exact append_ne_of_right_ne _ hd

theorem countQG_pos_of_fallback :
    ∀ gs : List (String × GNode), gnodesHaveFallback gs = true → 0 < countQG gs
  | [], h => by simp [gnodesHaveFallback] at h
  | (n, .node glabel gseq grep gqs ggs) :: rest, h => by
    rw [gnodesHaveFallback] at h
    rw [countQG]
    simp only [Bool.or_eq_true] at h
    rcases h with ((h1 | h2) | h3) | h4
    · rw [Bool.and_eq_true] at h1
      rw [h1.1]
      simp
    · cases gqs with
      | nil => simp at h2
      | cons a t => simp only [List.length_cons]; omega
    · have := countQG_pos_of_fallback ggs h3
      omega
    · have := countQG_pos_of_fallback rest h4
      omega

theorem emitForm_counter (x : XLSForm) (c : Nat) :
    (emitForm x c).2.2 = c + (x.questions.length + countQG x.groups) := by
  unfold emitForm
  rw [emitG_counter, emitQ_counter]
  omega

theorem emitForm_keys_indep (x : XLSForm) (c c' : Nat) :
    (emitForm x c).1.map Prod.fst = (emitForm x c').1.map Prod.fst ∧
    (emitForm x c).2.1.map Prod.fst = (emitForm x c').2.1.map Prod.fst := by
  unfold emitForm
  constructor
  · rw [List.map_append, List.map_append, emitQ_keys_indep x.questions "" c c',
      (emitG_keys_indep x.groups "" _ _).1]
  · exact (emitG_keys_indep x.groups "" _ _).2

/-- Under collision-free names, a parse run from counter `c` returns
exactly the emission at `c`. -/
theorem parseFrom_eq_emitForm (x : XLSForm) (c : Nat)
    (hnq : ((emitForm x c).1.map Prod.fst).Nodup)
    (hng : ((emitForm x c).2.1.map Prod.fst).Nodup) :
    parseFrom x c =
      ({ questions := (emitForm x c).1, repeat_groups := (emitForm x c).2.1 },
        (emitForm x c).2.2) := by
  unfold emitForm at hnq hng ⊢
  unfold parseFrom parseLevel
  have h1 : (alistKeys ([] : List (String × Question)) ++
      (emitQ x.questions "" c).1.map Prod.fst).Nodup := by
    simp only [alistKeys, List.map_nil, List.nil_append]
    rw [List.map_append] at hnq
    exact (List.nodup_append.mp hnq).1
  rw [parseQuestions_eq_emit x.questions "" [] c h1]
  have h2 : (alistKeys (([] : List (String × Question)) ++
      (emitQ x.questions "" c).1) ++
      (emitG x.groups "" (emitQ x.questions "" c).2).1.map Prod.fst).Nodup := by
    unfold alistKeys
    simp only [List.nil_append]
    rw [← List.map_append]
    exact hnq
  have h3 : (alistKeys ([] : List (String × RepeatGroup)) ++
      (emitG x.groups "" (emitQ x.questions "" c).2).2.1.map Prod.fst).Nodup := by
    simpa [alistKeys] using hng
  rw [parseGroups_eq_emit x.groups "" _ [] _ h2 h3]
  simp

/-- C10 (amended): with no colliding fully-qualified names among questions
or among repeat groups, an input containing at least one question or
repeat group that omits an explicit `sequence` makes two consecutive
`parse()` calls on one `StructureParser` return different structures —
the second call continues counting exactly where the first ended. -/
theorem C10_amended (x : XLSForm)
    (hfb : xlsHasFallback x = true)
    (hnq : ((emitForm x 0).1.map Prod.fst).Nodup)
    (hng : ((emitForm x 0).2.1.map Prod.fst).Nodup) :
    (parseFrom x ((parseFrom x 0).2)).1 ≠ (parseFrom x 0).1 ∧
    (parseFrom x ((parseFrom x 0).2)).2 = (parseFrom x 0).2 + (parseFrom x 0).2 := by
  have e0 := parseFrom_eq_emitForm x 0 hnq hng
  have hN : (emitForm x 0).2.2 = x.questions.length + countQG x.groups := by
    rw [emitForm_counter]
    omega
  set N := x.questions.length + countQG x.groups with hNdef
  have hNpos : 0 < N := by
    unfold xlsHasFallback at hfb
    rcases Bool.or_eq_true_iff.mp hfb with hq | hg
    · cases hx : x.questions with
      | nil => rw [hx] at hq; simp at hq
      | cons a t =>
        rw [hNdef, hx]
        simp only [List.length_cons]
        omega
    · have := countQG_pos_of_fallback x.groups hg
      omega
  have hnqN : ((emitForm x N).1.map Prod.fst).Nodup :=
    (emitForm_keys_indep x N 0).1 ▸ hnq
  have hngN : ((emitForm x N).2.1.map Prod.fst).Nodup :=
    (emitForm_keys_indep x N 0).2 ▸ hng
  have eN := parseFrom_eq_emitForm x N hnqN hngN
  have hc2 : (parseFrom x 0).2 = N := by
    rw [e0, hN]
  rw [hc2, eN, e0]
  constructor
  · intro heq
    rw [SurveyStructure.mk.injEq] at heq
    have hQ := heq.1
    have hG := heq.2
    unfold emitForm at hQ hG
    by_cases hq : x.questions.any (fun q => q.2.seq.isNone) = true
    · exact append_ne_append
        (emitQ_ne_of_fallback x.questions "" N 0 (by omega) hq)
        (emitQ_length x.questions "" N 0) hQ
    · have hqf : x.questions.any (fun q => q.2.seq.isNone) = false :=
        Bool.not_eq_true _ ▸ hq
      have hg : gnodesHaveFallback x.groups = true := by
        unfold xlsHasFallback at hfb
        rw [hqf] at hfb
        simpa using hfb
      have hcg : (emitQ x.questions "" N).2 ≠ (emitQ x.questions "" 0).2 := by
        rw [emitQ_counter, emitQ_counter]
        omega
      rcases emitG_ne_of_fallback x.groups "" _ _ hcg hg with hd | hd
      · rw [emitQ_eq_of_no_fallback x.questions "" N 0 hqf] at hQ
        exact hd (List.append_cancel_left hQ)
      · exact hd hG
  · rw [emitForm_counter]

/-- C10: counterexample.  `xC10` contains a question omitting an explicit
`sequence` field, yet two consecutive `parse()` calls on the same parser
return identical structures: the fallback entry is overwritten by the
colliding explicitly-sequenced node, so the claim's universal statement
fails. -/
theorem C10_counterexample :
    xlsHasFallback xC10 = true ∧
    (parseFrom xC10 ((parseFrom xC10 0).2)).1 = (parseFrom xC10 0).1 ∧
    (parseFrom xC10 0).2 = 2 := by
  refine ⟨?_, ?_, ?_⟩
  · simp only [xlsHasFallback, gnodesHaveFallback, xC10]
    decide
  · simp only [parseFrom, parseLevel, parseQuestions, parseGroups, xC10]
    decide
  · simp only [parseFrom, parseLevel, parseQuestions, parseGroups, xC10]
    decide

/-- C10 amended witness: on `xC10w` the second `parse()` differs from the
first (the fallback sequence becomes 1 instead of 0) and the counter
doubles. -/
theorem C10_witness :
    (parseFrom xC10w ((parseFrom xC10w 0).2)).1 ≠ (parseFrom xC10w 0).1 ∧
    (parseFrom xC10w ((parseFrom xC10w 0).2)).2 =
      (parseFrom xC10w 0).2 + (parseFrom xC10w 0).2 :=
  C10_amended xC10w
    (by
      simp only [xlsHasFallback, gnodesHaveFallback, xC10w]
      decide)
    (by
      simp only [emitForm, emitQ, emitG, xC10w]
      decide)
    (by
      simp only [emitForm, emitQ, emitG, xC10w]
      decide)

end Kobo
